import Mathlib

/-!
Verification of the `ad-data-explorer` table engine
(`custom_csv_parser/dataframe.py` and `custom_csv_parser/csv_parser.py`)
against its natural-language specification.

The Python `DataFrame` keeps a dict from column name to the list of cell
values plus an ordered list of column names; we model the dict as an
insertion-ordered association list.  Cell values coming from the parser are
strings; scalars supplied by callers may be numbers; a missing cell is
`None`.  We model cells polymorphically where the code is polymorphic and
with an explicit `Value` type (`null`, `str`, `num`) where Python's dynamic
typing matters (comparisons, numeric coercion).  Python exceptions are
modelled with `Except`.
-/

namespace ADE

/-- Equality of modelled Python outcomes (normal result or exception) is
decidable, so concrete runs can be checked by `decide`. -/
instance [DecidableEq ε] [DecidableEq β] : DecidableEq (Except ε β)
  | .error a, .error b =>
    if h : a = b then .isTrue (by rw [h]) else .isFalse (fun hc => by cases hc; exact h rfl)
  | .error _, .ok _ => .isFalse (fun hc => Except.noConfusion hc)
  | .ok _, .error _ => .isFalse (fun hc => Except.noConfusion hc)
  | .ok a, .ok b =>
    if h : a = b then .isTrue (by rw [h]) else .isFalse (fun hc => by cases hc; exact h rfl)

/-- Insertion-ordered association list standing for a Python `dict`. -/
abbrev Dict (κ : Type) (β : Type) := List (κ × β)

/-- Python `d[k]` as an `Option`: the value of the first entry with key `k`. -/
def dlookup [DecidableEq κ] : Dict κ β → κ → Option β
  | [], _ => Option.none
  | (k', v) :: rest, k => if k' = k then some v else dlookup rest k

/-- Python `d[k] = v`: replace the value of an existing entry in place,
otherwise append a new entry at the end. -/
def dset [DecidableEq κ] : Dict κ β → κ → β → Dict κ β
  | [], k, v => [(k, v)]
  | (k', v') :: rest, k, v =>
    if k' = k then (k, v) :: rest else (k', v') :: dset rest k v

/-- Python `d[k].append(x)` guarded by `if k in d`: append one element to the
list stored under `k`, leaving the dict unchanged when the key is absent
(the join code only appends under such a membership guard, or to keys it
has initialised). -/
def dappend [DecidableEq κ] : Dict κ (List α) → κ → α → Dict κ (List α)
  | [], _, _ => []
  | (k', l) :: rest, k, v =>
    if k' = k then (k', l ++ [v]) :: rest else (k', l) :: dappend rest k v

/-- Python `if k not in d: d[k] = []` followed by `d[k].append(x)`, as used
to build the join's hash index over the right table. -/
def dpush [DecidableEq κ] : Dict κ (List α) → κ → α → Dict κ (List α)
  | [], k, v => [(k, [v])]
  | (k', l) :: rest, k, v =>
    if k' = k then (k', l ++ [v]) :: rest else (k', l) :: dpush rest k v

@[simp] theorem dlookup_nil [DecidableEq κ] (k : κ) :
    dlookup ([] : Dict κ β) k = Option.none := rfl

@[simp] theorem dlookup_cons [DecidableEq κ] (k' : κ) (v : β) (rest : Dict κ β) (k : κ) :
    dlookup ((k', v) :: rest) k = if k' = k then some v else dlookup rest k := rfl

theorem dlookup_map_self [DecidableEq κ] (L : List κ) (g : κ → β) (k : κ) :
    dlookup (L.map fun x => (x, g x)) k = if k ∈ L then some (g k) else Option.none := by
  induction L with
  | nil => simp
  | cons x L ih =>
    simp only [List.map_cons, dlookup_cons, ih, List.mem_cons]
    by_cases hx : x = k
    · subst hx; simp
    · simp [hx, Ne.symm hx]

theorem dset_eq_append_of_not_mem [DecidableEq κ] (d : Dict κ β) (k : κ) (v : β)
    (h : k ∉ d.map Prod.fst) : dset d k v = d ++ [(k, v)] := by
  induction d with
  | nil => rfl
  | cons e rest ih =>
    obtain ⟨k', v'⟩ := e
    simp only [List.map_cons, List.mem_cons] at h
    push_neg at h
    simp [dset, Ne.symm h.1, ih h.2]

/-- `dappend` on a dict in canonical pointwise form touches exactly the entry
keyed `k` (if present), because keys are unique. -/
theorem dappend_map_form [DecidableEq κ] (L : List κ) (g : κ → List α) (k : κ) (v : α)
    (hnd : L.Nodup) :
    dappend (L.map fun x => (x, g x)) k v =
      L.map fun x => (x, if x = k then g x ++ [v] else g x) := by
  induction L with
  | nil => rfl
  | cons x L ih =>
    rcases List.nodup_cons.mp hnd with ⟨hx, hL⟩
    by_cases hxk : x = k
    · subst hxk
      have hmap : (L.map fun y => (y, if y = x then g y ++ [v] else g y)) =
          L.map fun y => (y, g y) :=
        List.map_congr_left (fun y hy => by
          have hne : y ≠ x := fun h => hx (h ▸ hy)
          simp [hne])
      simp [dappend, hmap]
    · simp [dappend, hxk, ih hL]

/-!  The `DataFrame` data model (`dataframe.py`, `DataFrame.__init__`). -/

/-- The column store: `data` models `self._data` (dict column name → list of
cell values), `columns` models `self._columns` (ordered column names). -/
structure DataFrame (α : Type) where
  data : Dict String (List α)
  columns : List String
deriving DecidableEq

/-- The value list of a column (`self._data[col]`), defaulting to `[]` for an
absent key; code paths that would raise `KeyError` in Python are guarded by
explicit checks or well-formedness hypotheses wherever this is used. -/
def DataFrame.col (df : DataFrame α) (c : String) : List α :=
  (dlookup df.data c).getD []

/-- Row count as computed by `DataFrame.__init__`:
`len(self._data[self._columns[0]])` when both `self._data` and
`self._columns` are non-empty, else `0`. -/
def DataFrame.shape0 (df : DataFrame α) : Nat :=
  match df.data, df.columns with
  | [], _ => 0
  | _ :: _, [] => 0
  | _ :: _, c :: _ => (df.col c).length

/-- Well-formedness of a table: the dict's keys are exactly the (duplicate
free) column list and every column holds `shape0` cells.  This is the
invariant the Python constructor silently assumes. -/
def DataFrame.WF (df : DataFrame α) : Prop :=
  df.data.map Prod.fst = df.columns ∧ df.columns.Nodup ∧
    ∀ p ∈ df.data, p.2.length = df.shape0

instance (df : DataFrame α) [DecidableEq α] : Decidable df.WF := by
  unfold DataFrame.WF; infer_instance

theorem dlookup_of_mem_nodup [DecidableEq κ] (d : Dict κ β) (k : κ) (v : β)
    (h : (k, v) ∈ d) (hnd : (d.map Prod.fst).Nodup) : dlookup d k = some v := by
  induction d with
  | nil => cases h
  | cons e rest ih =>
    obtain ⟨k', v'⟩ := e
    simp only [List.map_cons, List.nodup_cons] at hnd
    obtain ⟨hk'nm, hrest⟩ := hnd
    rcases List.mem_cons.mp h with h1 | h1
    · cases h1; simp [dlookup]
    · have hk' : k' ≠ k := by
        intro hk; subst hk
        exact hk'nm (List.mem_map.mpr ⟨(k', v), h1, rfl⟩)
      simp [dlookup, hk', ih h1 hrest]

theorem DataFrame.col_eq_of_mem (df : DataFrame α) (c : String) (l : List α)
    (h : (c, l) ∈ df.data) (hkeys : df.data.map Prod.fst = df.columns)
    (hnd : df.columns.Nodup) : df.col c = l := by
  unfold DataFrame.col
  rw [dlookup_of_mem_nodup df.data c l h (by rw [hkeys]; exact hnd)]
  rfl

theorem DataFrame.length_col_of_WF (df : DataFrame α)
    (hwf : df.WF) (c : String) (hc : c ∈ df.columns) :
    (df.col c).length = df.shape0 := by
  obtain ⟨hkeys, hnd, hlen⟩ := hwf
  have hmemf : c ∈ df.data.map Prod.fst := hkeys ▸ hc
  obtain ⟨p, hmem, hk⟩ := List.mem_map.mp hmemf
  obtain ⟨k, l⟩ := p
  simp only at hk
  subst hk
  rw [df.col_eq_of_mem _ l hmem hkeys hnd]
  exact hlen _ hmem

/-!  Cell values and the `Series` comparison operators
(`dataframe.py`, class `Series`). -/

/-- A Python cell or scalar as the engine sees it: `None`, a text value, or
a number (ints and floats are modelled together as rationals). -/
inductive Value where
  | null : Value
  | str : String → Value
  | num : ℚ → Value
deriving DecidableEq

/-- One of the four ordering comparisons a `Series` supports. -/
inductive CmpOp where
  | gt | ge | lt | le
deriving DecidableEq

/-- Python `a OP b` for an ordering operator: defined (`some`) exactly when
both operands are strings or both are numbers; any other pairing raises
`TypeError` in Python (`none` here).  In particular a text value is never
order-comparable with a numeric scalar, and `None` is order-comparable with
nothing. -/
def pyCmp : CmpOp → Value → Value → Option Bool
  | op, .str a, .str b =>
    some (match op with
      | .gt => decide (b < a)
      | .ge => decide (b ≤ a)
      | .lt => decide (a < b)
      | .le => decide (a ≤ b))
  | op, .num a, .num b =>
    some (match op with
      | .gt => decide (b < a)
      | .ge => decide (b ≤ a)
      | .lt => decide (a < b)
      | .le => decide (a ≤ b))
  | _, _, _ => Option.none

/-- `Series.__gt__` / `__ge__` / `__lt__` / `__le__`:
`[val OP other if val is not None else False for val in self._data]`.
The comprehension maps a `None` element to `False`; on any other element it
evaluates `val OP other` directly, so a non-comparable pairing raises
`TypeError` (modelled by `Except.error`), aborting the whole comparison. -/
def seriesOrdCmp (op : CmpOp) (other : Value) : List Value → Except Unit (List Bool)
  | [] => .ok []
  | v :: vs =>
    match (if v = Value.null then some false else pyCmp op v other) with
    | Option.none => .error ()
    | some b =>
      match seriesOrdCmp op other vs with
      | .error e => .error e
      | .ok bs => .ok (b :: bs)

/-- C1, counterexample.  The claim says a non-comparable element (a
non-numeric text value against a numeric scalar) yields `false` for that
element and the comparison never raises.  In the code only `None` is mapped
to `false`: `Series.__gt__` evaluates `'abc' > 5`, which raises `TypeError`,
so the element-wise result `[false]` the claim predicts is never produced.
The same happens for `>=`, `<` and `<=`. -/
theorem series_cmp_raises_on_non_comparable :
    seriesOrdCmp .gt (.num 5) [.str "abc"] = .error () ∧
    seriesOrdCmp .ge (.num 5) [.str "abc"] = .error () ∧
    seriesOrdCmp .lt (.num 5) [.str "abc"] = .error () ∧
    seriesOrdCmp .le (.num 5) [.str "abc"] = .error () ∧
    seriesOrdCmp .gt (.num 5) [.str "abc"] ≠ .ok [false] := by
  refine ⟨rfl, rfl, rfl, rfl, ?_⟩
  intro h
  exact Except.noConfusion h

/-- C1, amended.  Ordering comparisons on a Column View return one boolean
per element, with a null element mapped to `false`, **provided** every
non-null element is order-comparable with the scalar; if some non-null
element is non-comparable (e.g. a non-numeric text value against a numeric
scalar) the comparison raises a `TypeError` instead of yielding `false` for
that element. -/
theorem series_cmp_spec (op : CmpOp) (other : Value) (data : List Value) :
    ((∀ v ∈ data, v = Value.null ∨ (pyCmp op v other).isSome) →
      seriesOrdCmp op other data =
        .ok (data.map fun v =>
          if v = Value.null then false else (pyCmp op v other).getD false)) ∧
    ((∃ v ∈ data, v ≠ Value.null ∧ pyCmp op v other = Option.none) →
      seriesOrdCmp op other data = .error ()) := by
  induction data with
  | nil => exact ⟨fun _ => rfl, fun ⟨v, hv, _⟩ => absurd hv (List.not_mem_nil v)⟩
  | cons x xs ih =>
    constructor
    · intro hall
      have hx := hall x (List.mem_cons_self x xs)
      have hxs := (ih.1 (fun v hv => hall v (List.mem_cons_of_mem x hv)))
      unfold seriesOrdCmp
      by_cases hnull : x = Value.null
      · simp [hnull, hxs]
      · rcases hx with h | h
        · exact absurd h hnull
        · obtain ⟨b, hb⟩ := Option.isSome_iff_exists.mp h
          simp [hnull, hb, hxs]
    · rintro ⟨v, hv, hvn, hvc⟩
      unfold seriesOrdCmp
      rcases List.mem_cons.mp hv with rfl | hvxs
      · simp [hvn, hvc]
      · by_cases hnull : x = Value.null
        · simp [hnull, ih.2 ⟨v, hvxs, hvn, hvc⟩]
        · cases hpc : pyCmp op x other with
          | none => simp [hnull, hpc]
          | some b => simp [hnull, hpc, ih.2 ⟨v, hvxs, hvn, hvc⟩]

/-- Witness for `series_cmp_spec`: a concrete series containing a null, a
larger and a smaller number, compared with `> 5`. -/
theorem series_cmp_spec_witness :
    seriesOrdCmp .gt (.num 5) [.null, .num 7, .num 3] = .ok [false, true, false] := by
  have h := (series_cmp_spec .gt (.num 5) [.null, .num 7, .num 3]).1 (by decide)
  simpa using h

/-!  Filter Engine (`DataFrame.filter`) and Projection
(`DataFrame.__getitem__`). -/

/-- `[i for i, keep in enumerate(condition) if keep]`, with `i` starting at
the given offset. -/
def maskIdx (i : Nat) : List Bool → List Nat
  | [] => []
  | b :: bs => (if b then [i] else []) ++ maskIdx (i + 1) bs

/-- `[self._data[col][i] for i in indices_to_keep]`. -/
def selectIdx [Inhabited α] (xs : List α) (keep : List Nat) : List α :=
  keep.map fun i => xs.getD i default

/-- The common tail of `DataFrame.filter`: build
`{col: [self._data[col][i] for i in indices_to_keep] for col in self._columns}`
and return it as a new frame over the same columns. -/
def DataFrame.filterCore [Inhabited α] (df : DataFrame α) (keep : List Nat) : DataFrame α :=
  ⟨df.columns.map fun c => (c, selectIdx (df.col c) keep), df.columns⟩

/-- `DataFrame.filter` on a boolean mask: the mask's length must equal the
row count (`ValueError` otherwise), then rows at the mask's true positions
are kept in order. -/
def DataFrame.filterMask [Inhabited α] (df : DataFrame α) (mask : List Bool) :
    Except String (DataFrame α) :=
  if mask.length ≠ df.shape0 then
    .error "Boolean mask length does not match DataFrame length"
  else .ok (df.filterCore (maskIdx 0 mask))

/-- `row = {col: self._data[col][i] for col in self._columns}`. -/
def DataFrame.rowAt [Inhabited α] (df : DataFrame α) (i : Nat) : Dict String α :=
  df.columns.map fun c => (c, (df.col c).getD i default)

/-- `DataFrame.filter` on a callable: evaluate the predicate once per row in
row order and keep the rows on which it returns true. -/
def DataFrame.filterPred [Inhabited α] (df : DataFrame α) (P : Dict String α → Bool) :
    DataFrame α :=
  df.filterCore ((List.range df.shape0).filter fun i => P (df.rowAt i))

/-- Multi-column projection (`DataFrame.__getitem__` on a list of names):
collect every requested name missing from the frame; fail with all of them
at once if any, else build the frame with exactly the requested columns. -/
def DataFrame.project (df : DataFrame α) (cols : List String) :
    Except (List String) (DataFrame α) :=
  if (cols.filter fun c => !(df.columns.contains c)) = [] then
    .ok ⟨cols.map fun c => (c, df.col c), cols⟩
  else .error (cols.filter fun c => !(df.columns.contains c))

/-- An element of the Python list handed to `DataFrame.__getitem__`. -/
inductive PyElem where
  | bool : Bool → PyElem
  | str : String → PyElem
deriving DecidableEq

/-- `isinstance(x, bool)`. -/
def PyElem.isBool : PyElem → Bool
  | .bool _ => true
  | _ => false

/-- The boolean payload of an element (unused on strings, which are rejected
before this is consulted). -/
def PyElem.asBool : PyElem → Bool
  | .bool b => b
  | _ => false

/-- `DataFrame.__getitem__` on a list argument: if the list is non-empty and
its first element is a boolean, the whole list is dispatched to
`DataFrame.filter` as a mask (which then validates length and that every
element is boolean); otherwise the list is treated as column names for
projection — in particular the empty list takes the projection branch. -/
def DataFrame.getitemList [Inhabited α] (df : DataFrame α) (item : List PyElem) :
    Except String (DataFrame α) :=
  match item with
  | .bool b :: rest =>
    if (PyElem.bool b :: rest).length ≠ df.shape0 then
      .error "Boolean mask length does not match DataFrame length"
    else if (PyElem.bool b :: rest).all PyElem.isBool then
      .ok (df.filterCore (maskIdx 0 ((PyElem.bool b :: rest).map PyElem.asBool)))
    else .error "When passing a list, all elements must be booleans"
  | _ =>
    let missing := item.filter fun e => match e with
      | .str s => !(df.columns.contains s)
      | .bool _ => true
    if missing = [] then
      let cols := item.map fun e => match e with
        | .str s => s
        | .bool b => toString b
      .ok ⟨cols.map fun c => (c, df.col c), cols⟩
    else .error "Columns not found in DataFrame"

/-!  Basic facts about the Filter Engine. -/

@[simp] theorem selectIdx_length [Inhabited α] (xs : List α) (keep : List Nat) :
    (selectIdx xs keep).length = keep.length := by
  simp [selectIdx]

@[simp] theorem DataFrame.filterCore_columns [Inhabited α] (df : DataFrame α)
    (keep : List Nat) : (df.filterCore keep).columns = df.columns := rfl

theorem DataFrame.filterCore_col [Inhabited α] (df : DataFrame α) (keep : List Nat)
    (c : String) (hc : c ∈ df.columns) :
    (df.filterCore keep).col c = selectIdx (df.col c) keep := by
  unfold DataFrame.filterCore DataFrame.col
  simp [dlookup_map_self, hc]

theorem map_fst_map_self (L : List κ) (g : κ → β) :
    (L.map fun x => (x, g x)).map Prod.fst = L := by
  induction L with
  | nil => rfl
  | cons x L ih => simp [ih]

/-- `shape0` of a frame whose dict is in canonical pointwise form over a
non-empty column list is the length of the first column. -/
theorem DataFrame.shape0_mk_cons (c : String) (cs : List String) (g : String → List α) :
    (DataFrame.mk ((c :: cs).map fun x => (x, g x)) (c :: cs)).shape0 = (g c).length := by
  show ((DataFrame.mk ((c :: cs).map fun x => (x, g x)) (c :: cs)).col c).length = _
  unfold DataFrame.col
  simp [dlookup]

theorem DataFrame.filterCore_shape0 [Inhabited α] (df : DataFrame α) (keep : List Nat)
    (hcols : df.columns ≠ []) : (df.filterCore keep).shape0 = keep.length := by
  obtain ⟨c, cs, hc⟩ := List.exists_cons_of_ne_nil hcols
  unfold DataFrame.filterCore
  rw [hc, DataFrame.shape0_mk_cons]
  simp

theorem DataFrame.filterCore_WF [Inhabited α] (df : DataFrame α) (keep : List Nat)
    (hnd : df.columns.Nodup) : (df.filterCore keep).WF := by
  refine ⟨map_fst_map_self _ _, by simpa using hnd, ?_⟩
  intro p hp
  rcases hcols : df.columns with _ | ⟨c, cs⟩
  · exfalso
    have hdata : (df.filterCore keep).data = [] := by
      show df.columns.map _ = []
      rw [hcols]; rfl
    rw [hdata] at hp
    exact List.not_mem_nil p hp
  · rw [df.filterCore_shape0 keep (by rw [hcols]; exact List.cons_ne_nil c cs)]
    have hp' : p ∈ df.columns.map fun x => (x, selectIdx (df.col x) keep) := hp
    obtain ⟨x, _, hx⟩ := List.mem_map.mp hp'
    rw [← hx]
    simp

theorem getD_eq_get_of_lt (l : List α) (d : α) (j : Nat) (h : j < l.length) :
    l.getD j d = l.get ⟨j, h⟩ := by
  induction l generalizing j with
  | nil => exact absurd h (by simp)
  | cons x xs ih =>
    cases j with
    | zero => rfl
    | succ n => exact ih n (Nat.lt_of_succ_lt_succ h)

theorem getD_map_of_lt (f : β → γ) (d : γ) (l : List β) (j : Nat) (h : j < l.length) :
    (l.map f).getD j d = f (l.get ⟨j, h⟩) := by
  induction l generalizing j with
  | nil => exact absurd h (by simp)
  | cons x xs ih =>
    cases j with
    | zero => rfl
    | succ n => exact ih n (Nat.lt_of_succ_lt_succ h)

theorem selectIdx_range [Inhabited α] (l : List α) :
    selectIdx l (List.range l.length) = l := by
  apply List.ext_get
  · simp [selectIdx]
  · intro i h1 h2
    simp only [selectIdx]
    rw [List.get_map, List.get_range]
    exact (getD_eq_get_of_lt l default i h2).symm ▸ rfl

theorem DataFrame.filterCore_rowAt [Inhabited α] (df : DataFrame α) (keep : List Nat)
    (j : Nat) (h : j < keep.length) :
    (df.filterCore keep).rowAt j = df.rowAt (keep.get ⟨j, h⟩) := by
  unfold DataFrame.rowAt
  rw [DataFrame.filterCore_columns]
  apply List.map_congr_left
  intro c hc
  rw [df.filterCore_col keep c hc]
  simp only [selectIdx]
  rw [getD_map_of_lt _ _ keep j h]

/-- C9.  Filtering with a row predicate is idempotent: filtering an already
filtered frame with the same predicate keeps every row, in the same order,
so `filter(filter(T, P), P) = filter(T, P)`. -/
theorem filterPred_idempotent [Inhabited α] (df : DataFrame α) (P : Dict String α → Bool)
    (hwf : df.WF) : (df.filterPred P).filterPred P = df.filterPred P := by
  rcases hcols : df.columns with _ | ⟨c0, cs⟩
  · have h1 : df.filterPred P = ⟨[], []⟩ := by
      unfold DataFrame.filterPred DataFrame.filterCore
      rw [hcols]
      rfl
    rw [h1]
    rfl
  · have hne : df.columns ≠ [] := by rw [hcols]; exact List.cons_ne_nil _ _
    set keep := (List.range df.shape0).filter (fun i => P (df.rowAt i)) with hkeepdef
    have hT' : df.filterPred P = df.filterCore keep := rfl
    have hsh : (df.filterCore keep).shape0 = keep.length := df.filterCore_shape0 keep hne
    have hkeep2 : (List.range (df.filterCore keep).shape0).filter
        (fun j => P ((df.filterCore keep).rowAt j)) = List.range keep.length := by
      rw [hsh]
      apply List.filter_eq_self.mpr
      intro j hj
      have hjlt : j < keep.length := List.mem_range.mp hj
      rw [DataFrame.filterCore_rowAt df keep j hjlt]
      exact List.of_mem_filter (p := fun i => P (df.rowAt i))
        (List.get_mem keep j hjlt)
    have houter : (df.filterPred P).filterPred P
        = (df.filterCore keep).filterCore (List.range keep.length) := by
      rw [hT']
      unfold DataFrame.filterPred
      rw [hkeep2]
    rw [houter, hT']
    have hcolsc : (df.filterCore keep).columns = df.columns := rfl
    show DataFrame.mk ((df.filterCore keep).columns.map fun c =>
        (c, selectIdx ((df.filterCore keep).col c) (List.range keep.length)))
        (df.filterCore keep).columns
      = DataFrame.mk (df.columns.map fun c => (c, selectIdx (df.col c) keep)) df.columns
    rw [hcolsc]
    congr 1
    apply List.map_congr_left
    intro c hc
    rw [df.filterCore_col keep c hc]
    have hlen : keep.length = (selectIdx (df.col c) keep).length := (selectIdx_length _ _).symm
    rw [hlen, selectIdx_range]

/-- Witness for `filterPred_idempotent`: a concrete two-row table and the
predicate selecting rows whose `A` cell is `"x"`. -/
theorem filterPred_idempotent_witness :
    ((DataFrame.mk [("A", ["x", "y"])] ["A"]).filterPred
        (fun r => decide ((dlookup r "A").getD "" = "x"))).filterPred
        (fun r => decide ((dlookup r "A").getD "" = "x"))
      = (DataFrame.mk [("A", ["x", "y"])] ["A"]).filterPred
          (fun r => decide ((dlookup r "A").getD "" = "x")) :=
  filterPred_idempotent _ _ (by decide)

/-- C10.  Indexing any frame with the empty list takes the projection
branch of `__getitem__` (the mask branch requires a non-empty list with a
boolean first element), so it returns a table with zero columns and zero
rows and never raises a shape-mismatch error, no matter how many rows the
source frame has. -/
theorem getitem_empty_list_projection [Inhabited α] (df : DataFrame α) :
    df.getitemList [] = .ok ⟨[], []⟩ ∧
    (DataFrame.mk ([] : Dict String (List α)) []).shape0 = 0 ∧
    (DataFrame.mk ([] : Dict String (List α)) []).columns.length = 0 :=
  ⟨rfl, rfl, rfl⟩

/-!  The CSV parser (`csv_parser.py`, class `CSVParser`).  A file is
modelled as the list of its lines (`file.readlines()` with the trailing
newline already dropped; `_clean_value` strips surrounding whitespace, so
this changes nothing observable). -/

/-- Python `str.strip()`: drop leading and trailing whitespace characters. -/
def pyStrip (s : String) : String :=
  ⟨((s.toList.dropWhile Char.isWhitespace).reverse.dropWhile Char.isWhitespace).reverse⟩

/-- `CSVParser._clean_value`: `value.strip().strip('"')` — surrounding
whitespace, then every leading and trailing quote character, is removed. -/
def cleanValue (s : String) : String :=
  ⟨((((pyStrip s).toList.dropWhile (· = '"')).reverse.dropWhile (· = '"')).reverse)⟩

/-- The character loop of `CSVParser._parse_line`: a quote toggles the
in-quotes state (and is not added to the field), the separator ends the
current field only when outside quotes, and any other character is appended
to the current field. -/
def parseLineAux (sep : Char) : List Char → List String → List Char → Bool → List String
  | [], vals, cur, _ => vals ++ [cleanValue ⟨cur⟩]
  | ch :: rest, vals, cur, inQ =>
    if ch = '"' then parseLineAux sep rest vals cur (!inQ)
    else if ch = sep ∧ ¬inQ then parseLineAux sep rest (vals ++ [cleanValue ⟨cur⟩]) [] inQ
    else parseLineAux sep rest vals (cur ++ [ch]) inQ

/-- `CSVParser._parse_line`. -/
def parseLine (sep : Char) (line : String) : List String :=
  parseLineAux sep line.toList [] [] false

/-- The `ValueError` raised on a row whose field count differs from the
header's column count: `"Row {i+2}: Expected {n} columns, but found {m}"`.
`row` is the 1-based row number in the file, counting the header as row 1. -/
structure SchemaError where
  row : Nat
  expected : Nat
  found : Nat
deriving DecidableEq

/-- Append one parsed row to the column store:
`for col_idx, col_name in enumerate(columns): data[col_name].append(values[col_idx])`. -/
def appendRow (cols : List String) (values : List String)
    (data : Dict String (List String)) : Dict String (List String) :=
  (cols.zip values).foldl (fun d p => dappend d p.1 p.2) data

/-- The main parsing loop over the data lines (`lines[1:]`), with `i` the
0-based index of the current line among them (`enumerate` counts blank
lines too).  A blank line is skipped; a line whose field count differs from
the header's aborts the whole parse with a `SchemaError` for row `i + 2`;
otherwise its fields are appended to the respective columns. -/
def parseRows (sep : Char) (n : Nat) (cols : List String) :
    List String → Nat → Dict String (List String) →
      Except SchemaError (Dict String (List String))
  | [], _, data => .ok data
  | line :: rest, i, data =>
    if pyStrip line = "" then parseRows sep n cols rest (i + 1) data
    else if (parseLine sep line).length ≠ n then
      .error ⟨i + 2, n, (parseLine sep line).length⟩
    else parseRows sep n cols rest (i + 1) (appendRow cols (parseLine sep line) data)

/-- Build `{col: [] for col in columns}` (one dict entry per distinct name,
in first-occurrence order). -/
def initColumns : List String → Dict String (List String) → Dict String (List String)
  | [], data => data
  | c :: cs, data =>
    if (data.map Prod.fst).contains c then initColumns cs data
    else initColumns cs (data ++ [(c, [])])

/-- `CSVParser.parse`: an empty source yields the empty frame; otherwise the
first line (stripped) is parsed as the header, whose fields become the
ordered column names, and every later line is a data row.  A row-width
mismatch aborts with a `SchemaError`; no partial table is returned. -/
def CSVParser.parse (sep : Char) (lines : List String) :
    Except SchemaError (DataFrame String) :=
  match lines with
  | [] => .ok ⟨[], []⟩
  | header :: rest =>
    match parseRows sep (parseLine sep (pyStrip header)).length (parseLine sep (pyStrip header))
        rest 0 (initColumns (parseLine sep (pyStrip header)) []) with
    | .error e => .error e
    | .ok data => .ok ⟨data, parseLine sep (pyStrip header)⟩

/-- C5.  If, among the data lines, every non-blank line before position `i`
parses to exactly `n` fields (`n` the header's column count), while the
line at position `i` is non-blank and parses to `m ≠ n` fields, the whole
parse fails with a `SchemaError` carrying the 1-based file row number
`i + 2` (the header is row 1), the expected count `n` and the found count
`m` — and no table is returned.  In particular a header `Col1,Col2,Col3`
followed by the data row `val4,val5` reports row 2, expected 3, found 2. -/
theorem parseRows_first_bad (sep : Char) (n : Nat) (cols : List String) :
    ∀ (rs : List String) (k : Nat) (data : Dict String (List String))
      (i : Nat) (hi : i < rs.length),
      (∀ j, j < i → ∀ (hlt : j < rs.length),
        pyStrip (rs.get ⟨j, hlt⟩) = "" ∨ (parseLine sep (rs.get ⟨j, hlt⟩)).length = n) →
      pyStrip (rs.get ⟨i, hi⟩) ≠ "" →
      (parseLine sep (rs.get ⟨i, hi⟩)).length ≠ n →
      parseRows sep n cols rs k data =
        .error ⟨i + k + 2, n, (parseLine sep (rs.get ⟨i, hi⟩)).length⟩ := by
  intro rs
  induction rs with
  | nil =>
    intro k data i hi
    exact absurd hi (by simp)
  | cons line rest' ih =>
    intro k data i hi hb hnb hbd
    cases i with
    | zero =>
      have hnb' : pyStrip line ≠ "" := hnb
      have hbd' : (parseLine sep line).length ≠ n := hbd
      show (if pyStrip line = "" then _ else if (parseLine sep line).length ≠ n then _ else _) = _
      rw [if_neg hnb', if_pos hbd', Nat.zero_add]
      rfl
    | succ m =>
      have hm : m < rest'.length := Nat.lt_of_succ_lt_succ hi
      have hnb' : pyStrip (rest'.get ⟨m, hm⟩) ≠ "" := hnb
      have hbd' : (parseLine sep (rest'.get ⟨m, hm⟩)).length ≠ n := hbd
      have hb' : ∀ j, j < m → ∀ (hlt : j < rest'.length),
          pyStrip (rest'.get ⟨j, hlt⟩) = "" ∨ (parseLine sep (rest'.get ⟨j, hlt⟩)).length = n :=
        fun j hj hlt => hb (j + 1) (Nat.succ_lt_succ hj) (Nat.succ_lt_succ hlt)
      have hline : pyStrip line = "" ∨ (parseLine sep line).length = n :=
        hb 0 (Nat.succ_pos m) (Nat.succ_pos rest'.length)
      have harith : m + (k + 1) + 2 = m + 1 + k + 2 := by omega
      by_cases hbl : pyStrip line = ""
      · show (if pyStrip line = "" then _ else if (parseLine sep line).length ≠ n then _ else _) = _
        rw [if_pos hbl, ih (k + 1) data m hm hb' hnb' hbd', harith]
        rfl
      · have hgood : (parseLine sep line).length = n := by
          rcases hline with h | h
          · exact absurd h hbl
          · exact h
        show (if pyStrip line = "" then _ else if (parseLine sep line).length ≠ n then _ else _) = _
        rw [if_neg hbl, if_neg (by simp [hgood]),
          ih (k + 1) (appendRow cols (parseLine sep line) data) m hm hb' hnb' hbd', harith]
        rfl

/-- C5.  If, among the data lines, every non-blank line before position `i`
parses to exactly `n` fields (`n` the header's column count), while the
line at 0-based position `i` is non-blank and parses to `m ≠ n` fields, the
whole parse fails with a `SchemaError` carrying the 1-based file row number
`i + 2` (the header is row 1), the expected count `n` and the found count
`m` — and no table (not even a partial one) is returned.  In particular a
header `Col1,Col2,Col3` followed by the data row `val4,val5` reports row 2,
expected 3, found 2 (see the witness). -/
theorem parse_schema_error (sep : Char) (header : String) (rest : List String)
    (i : Nat) (hi : i < rest.length)
    (hbefore : ∀ j, j < i → ∀ (hlt : j < rest.length),
      pyStrip (rest.get ⟨j, hlt⟩) = "" ∨
        (parseLine sep (rest.get ⟨j, hlt⟩)).length = (parseLine sep (pyStrip header)).length)
    (hblank : pyStrip (rest.get ⟨i, hi⟩) ≠ "")
    (hbad : (parseLine sep (rest.get ⟨i, hi⟩)).length ≠ (parseLine sep (pyStrip header)).length) :
    CSVParser.parse sep (header :: rest) =
      .error ⟨i + 2, (parseLine sep (pyStrip header)).length,
        (parseLine sep (rest.get ⟨i, hi⟩)).length⟩ := by
  have hmain := parseRows_first_bad sep (parseLine sep (pyStrip header)).length
    (parseLine sep (pyStrip header)) rest 0 (initColumns (parseLine sep (pyStrip header)) [])
    i hi hbefore hblank hbad
  show (match parseRows sep (parseLine sep (pyStrip header)).length (parseLine sep (pyStrip header))
      rest 0 (initColumns (parseLine sep (pyStrip header)) []) with
    | .error e => Except.error e
    | .ok data => Except.ok (DataFrame.mk data (parseLine sep (pyStrip header)))) = _
  rw [hmain]

/-- Witness for `parse_schema_error`: header `Col1,Col2,Col3` with the lone
data row `val4,val5` fails with row 2, expected 3, found 2. -/
theorem parse_schema_error_witness :
    CSVParser.parse ',' ["Col1,Col2,Col3", "val4,val5"] = .error ⟨2, 3, 2⟩ := by
  have h := parse_schema_error ',' "Col1,Col2,Col3" ["val4,val5"] 0 (by decide)
    (fun j hj _ => absurd hj (Nat.not_lt_zero j)) (by decide) (by decide)
  rw [h]
  rfl

/-!  Group-By (`DataFrame.groupby`). -/

/-- `sorted(list(set(xs)))`: the distinct values, in ascending order. -/
def sortAsc [LinearOrder α] [DecidableEq α] (l : List α) : List α :=
  List.insertionSort (· ≤ ·) l.dedup

/-- The loop of `DataFrame.groupby`: for each distinct value, in sorted
order, filter the frame with the equality mask
`[val == group for val in grouping_col_data]`. -/
def groupTables [DecidableEq α] [Inhabited α] (df : DataFrame α) (colData : List α) :
    List α → Except String (List (α × DataFrame α))
  | [] => .ok []
  | g :: gs =>
    match df.filterMask (colData.map fun v => decide (v = g)) with
    | .error e => .error e
    | .ok sub =>
      match groupTables df colData gs with
      | .error e => .error e
      | .ok rest => .ok ((g, sub) :: rest)

/-- `DataFrame.groupby`: `KeyError` when the key column is absent, else the
mapping from each distinct key value (ascending) to the sub-frame of rows
holding it. -/
def DataFrame.groupby [LinearOrder α] [DecidableEq α] [Inhabited α]
    (df : DataFrame α) (b : String) : Except String (List (α × DataFrame α)) :=
  if b ∈ df.columns then groupTables df (df.col b) (sortAsc (df.col b))
  else .error "Column not found in DataFrame"

theorem sortAsc_sorted [LinearOrder α] [DecidableEq α] (l : List α) :
    (sortAsc l).Sorted (· < ·) :=
  (List.sorted_insertionSort _ _).lt_of_le
    ((List.perm_insertionSort _ _).nodup_iff.mpr l.nodup_dedup)

theorem sortAsc_mem [LinearOrder α] [DecidableEq α] (l : List α) (v : α) :
    v ∈ sortAsc l ↔ v ∈ l :=
  (List.perm_insertionSort _ _).mem_iff.trans (List.mem_dedup)

theorem maskIdx_cons (i : Nat) (b : Bool) (bs : List Bool) :
    maskIdx i (b :: bs) = (if b then [i] else []) ++ maskIdx (i + 1) bs := rfl

theorem maskIdx_shift (bs : List Bool) :
    ∀ i, maskIdx i bs = (maskIdx 0 bs).map (fun t => t + i) := by
  induction bs with
  | nil => intro i; rfl
  | cons b bs ih =>
    intro i
    rw [maskIdx_cons i b bs, maskIdx_cons 0 b bs, List.map_append, ih (i + 1),
      ih 1, List.map_map]
    congr 1
    · by_cases hb : b <;> simp [hb]
    · apply List.map_congr_left
      intro t _
      simp only [Function.comp]
      omega

theorem selectIdx_maskIdx [Inhabited α] (xs : List α) (pred : α → Bool) :
    selectIdx xs (maskIdx 0 (xs.map pred)) = xs.filter pred := by
  induction xs with
  | nil => rfl
  | cons x xs ih =>
    have h1 : maskIdx 0 ((x :: xs).map pred)
        = (if pred x then [0] else []) ++ maskIdx 1 (xs.map pred) := rfl
    rw [h1, maskIdx_shift (xs.map pred) 1]
    unfold selectIdx
    rw [List.map_append, List.map_map]
    have hcomp : ((maskIdx 0 (xs.map pred)).map
          ((fun i => (x :: xs).getD i default) ∘ fun t => t + 1))
        = selectIdx xs (maskIdx 0 (xs.map pred)) :=
      List.map_congr_left fun t _ => rfl
    rw [hcomp, ih]
    by_cases hp : pred x
    · rw [if_pos hp]
      show ([0].map fun i => (x :: xs).getD i default) ++ xs.filter pred
          = (x :: xs).filter pred
      rw [List.filter_cons]
      simp [hp]
    · rw [if_neg hp]
      show (([] : List Nat).map fun i => (x :: xs).getD i default) ++ xs.filter pred
          = (x :: xs).filter pred
      rw [List.filter_cons]
      simp [hp]

theorem groupTables_ok [DecidableEq α] [Inhabited α] (df : DataFrame α) (colData : List α)
    (hlen : colData.length = df.shape0) :
    ∀ gs, groupTables df colData gs = .ok (gs.map fun g =>
      (g, df.filterCore (maskIdx 0 (colData.map fun v => decide (v = g))))) := by
  intro gs
  induction gs with
  | nil => rfl
  | cons g gs ih =>
    have hmask : df.filterMask (colData.map fun v => decide (v = g))
        = .ok (df.filterCore (maskIdx 0 (colData.map fun v => decide (v = g)))) := by
      unfold DataFrame.filterMask
      rw [if_neg (by simp [hlen])]
    show (match df.filterMask (colData.map fun v => decide (v = g)) with
      | .error e => Except.error e
      | .ok sub =>
        match groupTables df colData gs with
        | .error e => Except.error e
        | .ok rest => Except.ok ((g, sub) :: rest)) = _
    rw [hmask, ih]
    rfl

theorem sum_map_add_distrib (gs : List γ) (f h : γ → Nat) :
    (gs.map fun g => f g + h g).sum = (gs.map f).sum + (gs.map h).sum := by
  induction gs with
  | nil => rfl
  | cons g gs ih => simp [ih]; omega

theorem sum_map_indicator_zero [DecidableEq α] (gs : List α) (x : α) (hx : x ∉ gs) :
    (gs.map fun g => if x = g then 1 else 0).sum = 0 := by
  induction gs with
  | nil => rfl
  | cons g gs ih =>
    have hne : x ≠ g := fun h => hx (h ▸ List.mem_cons_self g gs)
    have hxs : x ∉ gs := fun h => hx (List.mem_cons_of_mem g h)
    simp [hne, ih hxs]

theorem sum_map_indicator_one [DecidableEq α] (gs : List α) (x : α)
    (hnd : gs.Nodup) (hx : x ∈ gs) :
    (gs.map fun g => if x = g then 1 else 0).sum = 1 := by
  induction gs with
  | nil => cases hx
  | cons g gs ih =>
    rcases List.nodup_cons.mp hnd with ⟨hg, hgs⟩
    by_cases hxg : x = g
    · subst hxg
      simp [sum_map_indicator_zero gs x hg]
    · rcases List.mem_cons.mp hx with h | h
      · exact absurd h hxg
      · simp [hxg, ih hgs h]

theorem sum_filter_length_eq [DecidableEq α] (gs : List α) (col : List α)
    (hnd : gs.Nodup) (hcov : ∀ v ∈ col, v ∈ gs) :
    (gs.map fun g => (col.filter fun v => decide (v = g)).length).sum = col.length := by
  induction col with
  | nil => simp
  | cons x col' ih =>
    have hxg : x ∈ gs := hcov x (List.mem_cons_self x col')
    have hmapeq : (gs.map fun g => ((x :: col').filter fun v => decide (v = g)).length)
        = gs.map fun g =>
            ((if x = g then 1 else 0) + (col'.filter fun v => decide (v = g)).length) :=
      List.map_congr_left fun g _ => by
        by_cases hxg' : x = g <;> simp [List.filter_cons, hxg'] <;> omega
    rw [hmapeq, sum_map_add_distrib, sum_map_indicator_one gs x hnd hxg,
      ih (fun v hv => hcov v (List.mem_cons_of_mem x hv))]
    simp [Nat.add_comm]

/-- C6.  `groupby` partitions a well-formed table by the distinct values of
the key column: the group keys are exactly the distinct values of that
column sorted strictly ascending; each group keeps the full column list,
is well formed, and its key column holds exactly the cells equal to its
key (so the partitions are disjoint); and the groups' row counts sum to the
table's row count. -/
theorem groupby_partition [LinearOrder α] [DecidableEq α] [Inhabited α]
    (df : DataFrame α) (b : String) (groups : List (α × DataFrame α))
    (hwf : df.WF) (hb : b ∈ df.columns)
    (hgroups : df.groupby b = .ok groups) :
    (groups.map Prod.fst).Sorted (· < ·) ∧
    (∀ v, v ∈ groups.map Prod.fst ↔ v ∈ df.col b) ∧
    (∀ p ∈ groups,
      p.2.columns = df.columns ∧ p.2.WF ∧
      p.2.col b = (df.col b).filter (fun v => decide (v = p.1)) ∧
      p.2.shape0 = ((df.col b).filter (fun v => decide (v = p.1))).length) ∧
    (groups.map fun p => p.2.shape0).sum = df.shape0 := by
  have hcollen : (df.col b).length = df.shape0 := df.length_col_of_WF hwf b hb
  have hgt := groupTables_ok df (df.col b) hcollen (sortAsc (df.col b))
  have hgb : df.groupby b = .ok (((sortAsc (df.col b)).map fun g =>
      (g, df.filterCore (maskIdx 0 ((df.col b).map fun v => decide (v = g)))))) := by
    unfold DataFrame.groupby
    rw [if_pos hb]
    exact hgt
  rw [hgb] at hgroups
  have hgeq : groups = (sortAsc (df.col b)).map fun g =>
      (g, df.filterCore (maskIdx 0 ((df.col b).map fun v => decide (v = g)))) := by
    cases hgroups
    rfl
  subst hgeq
  have hkeys : (((sortAsc (df.col b)).map fun g =>
      (g, df.filterCore (maskIdx 0 ((df.col b).map fun v => decide (v = g))))).map Prod.fst)
      = sortAsc (df.col b) := by
    rw [List.map_map,
      show (Prod.fst ∘ fun g : α =>
        (g, df.filterCore (maskIdx 0 ((df.col b).map fun v => decide (v = g))))) = id from rfl,
      List.map_id]
  have hsub : ∀ g, (df.filterCore (maskIdx 0 ((df.col b).map fun v => decide (v = g)))).col b
      = (df.col b).filter (fun v => decide (v = g)) := by
    intro g
    rw [df.filterCore_col _ b hb, selectIdx_maskIdx]
  have hsubwf : ∀ g, (df.filterCore
      (maskIdx 0 ((df.col b).map fun v => decide (v = g)))).WF :=
    fun g => df.filterCore_WF _ hwf.2.1
  refine ⟨?_, ?_, ?_, ?_⟩
  · rw [hkeys]; exact sortAsc_sorted _
  · intro v; rw [hkeys]; exact sortAsc_mem _ v
  · intro p hp
    obtain ⟨g, hg, hpe⟩ := List.mem_map.mp hp
    subst hpe
    refine ⟨rfl, hsubwf g, hsub g, ?_⟩
    have hbsub : b ∈ (df.filterCore
        (maskIdx 0 ((df.col b).map fun v => decide (v = g)))).columns := hb
    rw [← hsub g]
    exact ((df.filterCore _).length_col_of_WF (hsubwf g) b hbsub).symm
  · have hshapes : (((sortAsc (df.col b)).map fun g =>
        (g, df.filterCore (maskIdx 0 ((df.col b).map fun v => decide (v = g))))).map
          fun p => p.2.shape0)
        = (sortAsc (df.col b)).map
            fun g => ((df.col b).filter (fun v => decide (v = g))).length := by
      rw [List.map_map]
      apply List.map_congr_left
      intro g _
      show (df.filterCore (maskIdx 0 ((df.col b).map fun v => decide (v = g)))).shape0 = _
      have hbsub : b ∈ (df.filterCore
          (maskIdx 0 ((df.col b).map fun v => decide (v = g)))).columns := hb
      rw [← hsub g]
      exact ((df.filterCore _).length_col_of_WF (hsubwf g) b hbsub).symm
    rw [hshapes, ← hcollen]
    have hperm : List.Perm (sortAsc (df.col b)) (df.col b).dedup :=
      List.perm_insertionSort _ _
    rw [List.Perm.sum_eq (hperm.map _)]
    exact sum_filter_length_eq _ _ (df.col b).nodup_dedup
      (fun v hv => List.mem_dedup.mpr hv)

/-- Witness for `groupby_partition`: grouping a 3-row table by its `k`
column with values `[2, 1, 2]` yields the sorted keys `[1, 2]` with group
row counts 1 and 2, which sum to 3. -/
theorem groupby_partition_witness :
    (DataFrame.mk [("k", [2, 1, 2]), ("v", [10, 20, 30])] ["k", "v"]).groupby "k"
      = .ok [(1, DataFrame.mk [("k", [1]), ("v", [20])] ["k", "v"]),
             (2, DataFrame.mk [("k", [2, 2]), ("v", [10, 30])] ["k", "v"])] ∧
    ([(1, DataFrame.mk [("k", [1]), ("v", [20])] ["k", "v"]),
      (2, DataFrame.mk [("k", [2, 2]), ("v", [10, 30])] ["k", "v"])].map
        fun p => p.2.shape0).sum
      = (DataFrame.mk [("k", [2, 1, 2]), ("v", [10, 20, 30])] ["k", "v"]).shape0 := by
  constructor
  · decide
  · exact (groupby_partition (DataFrame.mk [("k", [2, 1, 2]), ("v", [10, 20, 30])] ["k", "v"])
      "k" [(1, DataFrame.mk [("k", [1]), ("v", [20])] ["k", "v"]),
           (2, DataFrame.mk [("k", [2, 2]), ("v", [10, 30])] ["k", "v"])]
      (by decide) (by decide) (by decide)).2.2.2

/-!  Aggregation (`dataframe.py`, `DataFrameGroupBy.agg`). -/

/-- The numeric value of a digit string. -/
def natOfDigits (cs : List Char) : Nat :=
  cs.foldl (fun n c => 10 * n + (c.toNat - Char.toNat (Char.ofNat 48))) 0

/-- Model of the Python builtin `float(str)` on the strings the engine
meets: surrounding whitespace and an optional sign, then decimal digits
with at most one decimal point; anything else fails (exponents and the
other exotic float spellings also fail here — the claims never depend on
them, only on coercible versus non-coercible). -/
def parseFloat (s : String) : Option ℚ :=
  parseFloatSigned (pyStrip s).toList
where
  parseFloatCore (cs : List Char) : Option ℚ :=
    match cs.dropWhile Char.isDigit with
    | [] =>
      if cs = [] then Option.none
      else some ((natOfDigits cs : ℚ))
    | dot :: frac =>
      if dot = Char.ofNat 46 ∧ frac.all Char.isDigit ∧
          (cs.takeWhile Char.isDigit ≠ [] ∨ frac ≠ []) then
        some ((natOfDigits (cs.takeWhile Char.isDigit) : ℚ)
          + (natOfDigits frac : ℚ) / (10 : ℚ) ^ frac.length)
      else Option.none
  parseFloatSigned : List Char → Option ℚ
    | c :: r =>
      if c = Char.ofNat 45 then (parseFloatCore r).map Neg.neg
      else if c = Char.ofNat 43 then parseFloatCore r
      else parseFloatCore (c :: r)
    | [] => Option.none

/-- `float(val)` wrapped in `try/except (ValueError, TypeError)`: `None`
raises `TypeError`, a non-numeric string raises `ValueError`; both are
swallowed and the value is skipped. -/
def pyFloat : Value → Option ℚ
  | .num q => some q
  | .str s => parseFloat s
  | .null => Option.none

/-- The coercible values of a column, in order
(`numeric_data` in `DataFrameGroupBy.agg`). -/
def aggNumeric (data : List Value) : List ℚ :=
  data.filterMap pyFloat

/-- One aggregation cell: `max`/`min`/`mean` over the coercible values with
`None` for an empty coercible list, `count` as the raw length of the
column, and an error for any other function name. -/
def aggCell (func : String) (data : List Value) : Except String Value :=
  if func = "max" then
    .ok (match aggNumeric data with
      | [] => .null
      | x :: xs => .num (xs.foldl max x))
  else if func = "min" then
    .ok (match aggNumeric data with
      | [] => .null
      | x :: xs => .num (xs.foldl min x))
  else if func = "mean" then
    .ok (match aggNumeric data with
      | [] => .null
      | x :: xs => .num ((x :: xs).sum / ((x :: xs).length : ℚ)))
  else if func = "count" then .ok (.num (data.length : ℚ))
  else .error ("Unsupported aggregation function " ++ func)

/-- `group_df[col]`: `KeyError` when the column is absent. -/
def DataFrame.colE (df : DataFrame α) (c : String) : Except String (List α) :=
  if c ∈ df.columns then .ok (df.col c) else .error "Column not found in DataFrame"

/-- The inner loop of `agg` for one rule: one aggregated cell per group, in
group order; the first `KeyError`/`ValueError` aborts. -/
def ruleCells (grouped : List (Value × DataFrame Value)) (c f : String) :
    Except String (List Value) :=
  match grouped with
  | [] => .ok []
  | (_, gdf) :: rest =>
    match gdf.colE c with
    | .error e => .error e
    | .ok data =>
      match aggCell f data with
      | .error e => .error e
      | .ok v =>
        match ruleCells rest c f with
        | .error e => .error e
        | .ok vs => .ok (v :: vs)

/-- The outer loop of `agg` over the rules, building the result columns
`<target>_<function>` in rule order. -/
def aggData (grouped : List (Value × DataFrame Value)) :
    List (String × String) → Except String (Dict String (List Value))
  | [] => .ok []
  | (c, f) :: rules =>
    match ruleCells grouped c f with
    | .error e => .error e
    | .ok cells =>
      match aggData grouped rules with
      | .error e => .error e
      | .ok rest => .ok ((c ++ "_" ++ f, cells) :: rest)

/-- `DataFrameGroupBy.agg`: the result frame has the grouping column first
(one row per group, in group order) and then one column per rule. -/
def DataFrameGroupBy.agg (byCol : String) (grouped : List (Value × DataFrame Value))
    (rules : List (String × String)) : Except String (DataFrame Value) :=
  match aggData grouped rules with
  | .error e => .error e
  | .ok d => .ok ⟨(byCol, grouped.map Prod.fst) :: d,
      byCol :: rules.map fun r => r.1 ++ "_" ++ r.2⟩

/-- C7.  For a well-formed partition: `count` is the partition's row count
whatever the target column holds; for `max`/`min`/`mean` a value that fails
numeric coercion is silently dropped (appending it changes nothing — in
particular it is not treated as zero); a partition with no coercible value
aggregates to the null marker rather than an error; and `mean` over a
partition with coercible values is their sum divided by their number. -/
theorem agg_rules (part : DataFrame Value) (c : String) (data : List Value)
    (v : Value) (func : String) (hwf : part.WF) (hc : c ∈ part.columns) :
    (aggCell "count" (part.col c) = .ok (.num (part.shape0 : ℚ))) ∧
    ((func = "max" ∨ func = "min" ∨ func = "mean") → pyFloat v = Option.none →
      aggCell func (data ++ [v]) = aggCell func data) ∧
    ((func = "max" ∨ func = "min" ∨ func = "mean") → data.filterMap pyFloat = [] →
      aggCell func data = .ok .null) ∧
    (data.filterMap pyFloat ≠ [] →
      aggCell "mean" data = .ok (.num ((data.filterMap pyFloat).sum
        / ((data.filterMap pyFloat).length : ℚ)))) := by
  refine ⟨?_, ?_, ?_, ?_⟩
  · have h1 : aggCell "count" (part.col c) = .ok (.num ((part.col c).length : ℚ)) := rfl
    rw [h1, part.length_col_of_WF hwf c hc]
  · intro hfunc hv
    have hnum : aggNumeric (data ++ [v]) = aggNumeric data := by
      unfold aggNumeric
      rw [List.filterMap_append]
      simp [hv]
    rcases hfunc with rfl | rfl | rfl <;> simp [aggCell, hnum]
  · intro hfunc hempty
    have hnum : aggNumeric data = [] := hempty
    rcases hfunc with rfl | rfl | rfl <;> simp [aggCell, hnum]
  · intro hne
    rcases hcase : data.filterMap pyFloat with _ | ⟨x, xs⟩
    · exact absurd hcase hne
    · have hnum : aggNumeric data = x :: xs := hcase
      simp [aggCell, hnum]

/-- Witness for `agg_rules`: `count` over a 3-row column with one junk cell
and one null is 3; appending a non-coercible string does not change a mean;
`max` over a partition with no coercible value is the null marker. -/
theorem agg_rules_witness :
    aggCell "count" ((DataFrame.mk [("s", [.str "7", .str "oops", .null])] ["s"]).col "s")
      = .ok (.num 3) ∧
    aggCell "mean" ([Value.num 1, Value.str "2"] ++ [Value.str "x"])
      = aggCell "mean" [Value.num 1, Value.str "2"] ∧
    aggCell "max" [Value.str "oops"] = .ok .null := by
  have h := agg_rules (DataFrame.mk [("s", [.str "7", .str "oops", .null])] ["s"]) "s"
    [Value.num 1, Value.str "2"] (Value.str "x") "mean" (by decide) (by decide)
  refine ⟨?_, h.2.1 (Or.inr (Or.inr rfl)) (by decide), ?_⟩
  · have h1 := h.1
    rw [h1]
    decide
  · have h3 := (agg_rules (DataFrame.mk [("s", [.str "7", .str "oops", .null])] ["s"]) "s"
      [Value.str "oops"] Value.null "max" (by decide) (by decide)).2.2.1
      (Or.inl rfl) (by decide)
    exact h3

theorem aggData_keys (grouped : List (Value × DataFrame Value)) :
    ∀ rules d, aggData grouped rules = .ok d →
      d.map Prod.fst = rules.map fun r => r.1 ++ "_" ++ r.2 := by
  intro rules
  induction rules with
  | nil =>
    intro d h
    cases h
    rfl
  | cons r rules ih =>
    intro d h
    obtain ⟨rc, rf⟩ := r
    unfold aggData at h
    cases hcells : ruleCells grouped rc rf with
    | error e => rw [hcells] at h; cases h
    | ok cells =>
      rw [hcells] at h
      cases hrest : aggData grouped rules with
      | error e => rw [hrest] at h; cases h
      | ok rest =>
        rw [hrest] at h
        cases h
        simp [ih rest hrest]

theorem dlookup_isSome_of_mem_keys [DecidableEq κ] (d : Dict κ β) (k : κ)
    (h : k ∈ d.map Prod.fst) : (dlookup d k).isSome := by
  induction d with
  | nil => cases h
  | cons e rest ih =>
    obtain ⟨k2, v2⟩ := e
    by_cases hk : k2 = k
    · simp [dlookup, hk]
    · rcases List.mem_cons.mp h with h1 | h1
      · exact absurd h1.symm hk
      · simp [dlookup, hk, ih h1]

theorem suffix_name_inj (c f1 f2 : String) (h : c ++ "_" ++ f1 = c ++ "_" ++ f2) :
    f1 = f2 := by
  have hd := congrArg String.data h
  simp only [String.data_append] at hd
  exact String.ext (List.append_cancel_left hd)

/-- C8.  When two rules target the same column with different aggregation
functions, both output columns appear in the result (the function suffix
keeps their names distinct, so the later column coexists with the earlier
one), and the result has one column per rule plus the grouping column. -/
theorem agg_two_rules_same_column (byCol : String)
    (grouped : List (Value × DataFrame Value)) (rules : List (String × String))
    (res : DataFrame Value) (c f1 f2 : String)
    (h1 : (c, f1) ∈ rules) (h2 : (c, f2) ∈ rules) (hne : f1 ≠ f2)
    (hok : DataFrameGroupBy.agg byCol grouped rules = .ok res) :
    (c ++ "_" ++ f1) ∈ res.columns ∧ (c ++ "_" ++ f2) ∈ res.columns ∧
    (c ++ "_" ++ f1) ≠ (c ++ "_" ++ f2) ∧
    (dlookup res.data (c ++ "_" ++ f1)).isSome ∧
    (dlookup res.data (c ++ "_" ++ f2)).isSome ∧
    res.columns.length = rules.length + 1 := by
  unfold DataFrameGroupBy.agg at hok
  cases haggd : aggData grouped rules with
  | error e => rw [haggd] at hok; cases hok
  | ok d =>
    rw [haggd] at hok
    cases hok
    have hkeys := aggData_keys grouped rules d haggd
    have hm1 : (c ++ "_" ++ f1) ∈ rules.map fun r => r.1 ++ "_" ++ r.2 :=
      List.mem_map.mpr ⟨(c, f1), h1, rfl⟩
    have hm2 : (c ++ "_" ++ f2) ∈ rules.map fun r => r.1 ++ "_" ++ r.2 :=
      List.mem_map.mpr ⟨(c, f2), h2, rfl⟩
    have hnn : (c ++ "_" ++ f1) ≠ (c ++ "_" ++ f2) :=
      fun hc => hne (suffix_name_inj c f1 f2 hc)
    refine ⟨List.mem_cons_of_mem _ hm1, List.mem_cons_of_mem _ hm2, hnn, ?_, ?_, by simp⟩
    · show (dlookup ((byCol, grouped.map Prod.fst) :: d) (c ++ "_" ++ f1)).isSome
      by_cases hb : byCol = c ++ "_" ++ f1
      · simp [dlookup, hb]
      · simp only [dlookup_cons, if_neg hb]
        exact dlookup_isSome_of_mem_keys d _ (hkeys ▸ hm1)
    · show (dlookup ((byCol, grouped.map Prod.fst) :: d) (c ++ "_" ++ f2)).isSome
      by_cases hb : byCol = c ++ "_" ++ f2
      · simp [dlookup, hb]
      · simp only [dlookup_cons, if_neg hb]
        exact dlookup_isSome_of_mem_keys d _ (hkeys ▸ hm2)

/-- Witness for `agg_two_rules_same_column`: `agg` with rules
`Age → max` and `Age → min` on one group produces both `Age_max` and
`Age_min` columns, one per rule. -/
theorem agg_two_rules_same_column_witness :
    DataFrameGroupBy.agg "Sex"
        [(Value.str "F", DataFrame.mk [("Age", [Value.str "30"])] ["Age"])]
        [("Age", "max"), ("Age", "min")]
      = .ok (DataFrame.mk
          [("Sex", [Value.str "F"]), ("Age_max", [Value.num 30]), ("Age_min", [Value.num 30])]
          ["Sex", "Age_max", "Age_min"]) ∧
    ("Age" ++ "_" ++ "max") ∈ (DataFrame.mk
          [("Sex", [Value.str "F"]), ("Age_max", [Value.num 30]), ("Age_min", [Value.num 30])]
          ["Sex", "Age_max", "Age_min"]).columns ∧
    ("Age" ++ "_" ++ "min") ∈ (DataFrame.mk
          [("Sex", [Value.str "F"]), ("Age_max", [Value.num 30]), ("Age_min", [Value.num 30])]
          ["Sex", "Age_max", "Age_min"]).columns ∧
    ("Age" ++ "_" ++ "max" : String) ≠ ("Age" ++ "_" ++ "min" : String) := by
  have h := agg_two_rules_same_column "Sex"
    [(Value.str "F", DataFrame.mk [("Age", [Value.str "30"])] ["Age"])]
    [("Age", "max"), ("Age", "min")]
    (DataFrame.mk
      [("Sex", [Value.str "F"]), ("Age_max", [Value.num 30]), ("Age_min", [Value.num 30])]
      ["Sex", "Age_max", "Age_min"])
    "Age" "max" "min" (by decide) (by decide) (by decide) (by decide)
  exact ⟨by decide, h.1, h.2.1, h.2.2.1⟩

/-!  Join Engine (`dataframe.py`, `DataFrame.join`).  Only the `how="inner"`
path is modelled; the `how` validation and the two type checks reject
inputs our embedding rules out by typing. -/

/-- The result name of a left column: suffixed `_left` exactly when the name
also occurs in the right frame and is neither join key. -/
def renameL (rightCols : List String) (lOn rOn c : String) : String :=
  if c ∈ rightCols ∧ c ≠ lOn ∧ c ≠ rOn then c ++ "_left" else c

/-- The result name of a right column: suffixed `_right` exactly when the
name also occurs in the left frame and is neither join key. -/
def renameR (leftCols : List String) (lOn rOn c : String) : String :=
  if c ∈ leftCols ∧ c ≠ lOn ∧ c ≠ rOn then c ++ "_right" else c

/-- The right columns the join iterates over: the right key column is
skipped exactly when both key names coincide
(`if col == right_on and left_on == right_on: continue`). -/
def rightKept (rightCols : List String) (lOn rOn : String) : List String :=
  rightCols.filter fun c => !decide (c = rOn ∧ lOn = rOn)

/-- The schema-building pass of `DataFrame.join`: seed every (renamed) left
column with an empty value list, then every kept (renamed) right column
whose name is not already a result column — a colliding right name is
silently skipped here. -/
def joinInit (leftCols rightCols : List String) (lOn rOn : String) :
    Dict String (List α) × List String :=
  (rightKept rightCols lOn rOn).foldl
    (fun acc c =>
      if renameR leftCols lOn rOn c ∈ acc.2 then acc
      else (dset acc.1 (renameR leftCols lOn rOn c) [], acc.2 ++ [renameR leftCols lOn rOn c]))
    (leftCols.foldl
      (fun acc c =>
        (dset acc.1 (renameL rightCols lOn rOn c) [], acc.2 ++ [renameL rightCols lOn rOn c]))
      (([] : Dict String (List α)), ([] : List String)))

/-- The result column names the join would produce with no collision
dropping: all (renamed) left names, then all kept (renamed) right names. -/
def joinNames (leftCols rightCols : List String) (lOn rOn : String) : List String :=
  leftCols.map (renameL rightCols lOn rOn) ++
    (rightKept rightCols lOn rOn).map (renameR leftCols lOn rOn)

/-- Modelled from the spec (for comparison with the code's schema): all left
columns in original order, then all right columns in original order with
the right key column dropped exactly when `left_key == right_key`; a
non-key name present in both frames is suffixed `_left`/`_right`. -/
def specJoinSchema (leftCols rightCols : List String) (lOn rOn : String) : List String :=
  (leftCols.map fun c => if c ∈ rightCols ∧ c ≠ lOn ∧ c ≠ rOn then c ++ "_left" else c) ++
    ((if lOn = rOn then rightCols.filter (fun c => !decide (c = rOn)) else rightCols).map
      fun c => if c ∈ leftCols ∧ c ≠ lOn ∧ c ≠ rOn then c ++ "_right" else c)

/-- The hash index over the right key column: a dict from key value to the
list of right row positions holding it, built in one scan. -/
def buildIndexAux [DecidableEq α] : List α → Nat → Dict α (List Nat) → Dict α (List Nat)
  | [], _, d => d
  | v :: vs, i, d => buildIndexAux vs (i + 1) (dpush d v i)

def buildIndex [DecidableEq α] (rkey : List α) : Dict α (List Nat) :=
  buildIndexAux rkey 0 []

/-- The scan over the left rows: each left row with a key present in the
index emits one `(left row, right row)` pair per bucket entry, in bucket
order; a left row with no match emits nothing. -/
def joinPairsAux [DecidableEq α] (index : Dict α (List Nat)) :
    List α → Nat → List (Nat × Nat)
  | [], _ => []
  | kv :: rest, i =>
    (match dlookup index kv with
      | Option.none => []
      | some bucket => bucket.map fun j => (i, j)) ++ joinPairsAux index rest (i + 1)

/-- The matched row pairs of the join, in emission order. -/
def joinPairs [DecidableEq α] (lkey rkey : List α) : List (Nat × Nat) :=
  joinPairsAux (buildIndex rkey) lkey 0

/-- One emitted result row: append, per (renamed) left column, the left
row's cell, then per kept (renamed) right column the right row's cell —
each append lands on the entry with that name, if any (`if new_col_name in
new_data`). -/
def joinRow [DecidableEq α] [Inhabited α] (left right : DataFrame α) (lOn rOn : String)
    (d : Dict String (List α)) (p : Nat × Nat) : Dict String (List α) :=
  (rightKept right.columns lOn rOn).foldl
    (fun d c => dappend d (renameR left.columns lOn rOn c) ((right.col c).getD p.2 default))
    (left.columns.foldl
      (fun d c => dappend d (renameL right.columns lOn rOn c) ((left.col c).getD p.1 default))
      d)

/-- `DataFrame.join` (inner): validate the key columns, build the right
index, compute the schema, then emit one result row per matched pair. -/
def DataFrame.join [DecidableEq α] [Inhabited α] (left right : DataFrame α)
    (lOn rOn : String) : Except String (DataFrame α) :=
  if lOn ∉ left.columns then .error "Column not found in left DataFrame"
  else if rOn ∉ right.columns then .error "Column not found in right DataFrame"
  else
    .ok ⟨(joinPairs (left.col lOn) (right.col rOn)).foldl
        (joinRow left right lOn rOn) (joinInit (α := α) left.columns right.columns lOn rOn).1,
      (joinInit (α := α) left.columns right.columns lOn rOn).2⟩

/-!  The schema pass, under freshness of the generated names. -/

theorem joinInit_left_fold (ρ : String → String) (cols : List String) :
    ∀ (d0 : Dict String (List α)) (L0 : List String),
      d0.map Prod.fst = L0 → (L0 ++ cols.map ρ).Nodup →
      cols.foldl (fun acc c => (dset acc.1 (ρ c) [], acc.2 ++ [ρ c])) (d0, L0)
        = (d0 ++ (cols.map ρ).map (fun n => (n, [])), L0 ++ cols.map ρ) := by
  induction cols with
  | nil => intro d0 L0 _ _; simp
  | cons c cols ih =>
    intro d0 L0 h1 h2
    have hfresh : ρ c ∉ d0.map Prod.fst := by
      rw [h1]
      intro hc
      rcases List.nodup_append.mp h2 with ⟨_, _, hdisj⟩
      exact hdisj hc (by simp)
    have hstep : dset d0 (ρ c) ([] : List α) = d0 ++ [(ρ c, [])] :=
      dset_eq_append_of_not_mem d0 (ρ c) [] hfresh
    show List.foldl _ (dset d0 (ρ c) [], L0 ++ [ρ c]) cols = _
    rw [hstep, ih (d0 ++ [(ρ c, [])]) (L0 ++ [ρ c]) (by simp [h1])
      (by simpa [List.append_assoc] using h2)]
    simp

theorem joinInit_right_fold (ρ : String → String) (cols : List String) :
    ∀ (d0 : Dict String (List α)) (L0 : List String),
      d0.map Prod.fst = L0 → (L0 ++ cols.map ρ).Nodup →
      cols.foldl (fun acc c => if ρ c ∈ acc.2 then acc
          else (dset acc.1 (ρ c) [], acc.2 ++ [ρ c])) (d0, L0)
        = (d0 ++ (cols.map ρ).map (fun n => (n, [])), L0 ++ cols.map ρ) := by
  induction cols with
  | nil => intro d0 L0 _ _; simp
  | cons c cols ih =>
    intro d0 L0 h1 h2
    have hfresh : ρ c ∉ L0 := by
      intro hc
      rcases List.nodup_append.mp h2 with ⟨_, _, hdisj⟩
      exact hdisj hc (by simp)
    have hstep : dset d0 (ρ c) ([] : List α) = d0 ++ [(ρ c, [])] :=
      dset_eq_append_of_not_mem d0 (ρ c) [] (h1 ▸ hfresh)
    show List.foldl _
        (if ρ c ∈ L0 then (d0, L0) else (dset d0 (ρ c) [], L0 ++ [ρ c])) cols = _
    rw [if_neg hfresh, hstep, ih (d0 ++ [(ρ c, [])]) (L0 ++ [ρ c]) (by simp [h1])
      (by simpa [List.append_assoc] using h2)]
    simp

theorem joinInit_eq (leftCols rightCols : List String) (lOn rOn : String)
    (hnd : (joinNames leftCols rightCols lOn rOn).Nodup) :
    joinInit (α := α) leftCols rightCols lOn rOn =
      ((joinNames leftCols rightCols lOn rOn).map (fun n => (n, [])),
        joinNames leftCols rightCols lOn rOn) := by
  unfold joinInit joinNames at *
  rw [joinInit_left_fold (renameL rightCols lOn rOn) leftCols [] [] rfl
    (by simpa using (List.nodup_append.mp hnd).1)]
  simp only [List.nil_append]
  rw [joinInit_right_fold (renameR leftCols lOn rOn) (rightKept rightCols lOn rOn)
    ((leftCols.map (renameL rightCols lOn rOn)).map fun n => (n, []))
    (leftCols.map (renameL rightCols lOn rOn)) (map_fst_map_self _ _) hnd]
  simp

/-!  The data pass: a closed form for the emitted columns. -/

/-- Left-to-right concatenation of the images of a list. -/
def flatMapL (f : β → List γ) : List β → List γ
  | [] => []
  | x :: xs => f x ++ flatMapL f xs

theorem flatMapL_map_singleton (f : β → γ) (l : List β) :
    flatMapL (fun x => [f x]) l = l.map f := by
  induction l with
  | nil => rfl
  | cons x xs ih => simp [flatMapL, ih]

theorem flatMapL_length_of_one (f : β → List γ) (l : List β)
    (h : ∀ x, (f x).length = 1) : (flatMapL f l).length = l.length := by
  induction l with
  | nil => rfl
  | cons x xs ih =>
    simp [flatMapL, ih, h x]
    omega

theorem foldl_dappend_map (cols : List String) (ρ : String → String) (val : String → α)
    (L : List String) (hL : L.Nodup) (hcols : (cols.map ρ).Nodup) :
    ∀ g : String → List α,
      cols.foldl (fun d c => dappend d (ρ c) (val c)) (L.map fun k => (k, g k))
        = L.map fun k => (k, g k ++ (cols.filter fun c => decide (ρ c = k)).map val) := by
  induction cols with
  | nil =>
    intro g
    show L.map _ = _
    exact List.map_congr_left fun k _ => by simp
  | cons c cols ih =>
    intro g
    have hstep : dappend (L.map fun k => (k, g k)) (ρ c) (val c)
        = L.map fun k => (k, if k = ρ c then g k ++ [val c] else g k) :=
      dappend_map_form L g (ρ c) (val c) hL
    have hc0 : ρ c ∉ cols.map ρ := (List.nodup_cons.mp (by simpa using hcols)).1
    have hcols' : (cols.map ρ).Nodup := (List.nodup_cons.mp (by simpa using hcols)).2
    show List.foldl _ (dappend (L.map fun k => (k, g k)) (ρ c) (val c)) cols = _
    rw [hstep, ih hcols' (fun k => if k = ρ c then g k ++ [val c] else g k)]
    apply List.map_congr_left
    intro k _
    by_cases hk : k = ρ c
    · rw [hk]
      have hnil : (cols.filter fun c' => decide (ρ c' = ρ c)) = [] := by
        apply List.filter_eq_nil.mpr
        intro c' hc'
        simp only [decide_eq_true_eq]
        intro he
        exact hc0 (he ▸ List.mem_map_of_mem ρ hc')
      rw [List.filter_cons]
      simp [hnil]
    · rw [List.filter_cons]
      simp [hk, Ne.symm hk]

/-- The cells one matched pair contributes to the result column named `k`:
its left row's cell for each left column renamed to `k`, then its right
row's cell for each kept right column renamed to `k`. -/
def perPairCells [DecidableEq α] [Inhabited α] (left right : DataFrame α)
    (lOn rOn : String) (k : String) (p : Nat × Nat) : List α :=
  ((left.columns.filter fun c => decide (renameL right.columns lOn rOn c = k)).map
    fun c => (left.col c).getD p.1 default) ++
  (((rightKept right.columns lOn rOn).filter fun c =>
      decide (renameR left.columns lOn rOn c = k)).map
    fun c => (right.col c).getD p.2 default)

theorem joinRow_map [DecidableEq α] [Inhabited α] (left right : DataFrame α)
    (lOn rOn : String)
    (hnd : (joinNames left.columns right.columns lOn rOn).Nodup)
    (g : String → List α) (p : Nat × Nat) :
    joinRow left right lOn rOn
        ((joinNames left.columns right.columns lOn rOn).map fun k => (k, g k)) p
      = (joinNames left.columns right.columns lOn rOn).map
          fun k => (k, g k ++ perPairCells left right lOn rOn k p) := by
  have hndL : (left.columns.map (renameL right.columns lOn rOn)).Nodup :=
    (List.nodup_append.mp hnd).1
  have hndR : ((rightKept right.columns lOn rOn).map (renameR left.columns lOn rOn)).Nodup :=
    (List.nodup_append.mp hnd).2.1
  unfold joinRow
  rw [foldl_dappend_map left.columns (renameL right.columns lOn rOn)
    (fun c => (left.col c).getD p.1 default) _ hnd hndL g]
  rw [foldl_dappend_map (rightKept right.columns lOn rOn) (renameR left.columns lOn rOn)
    (fun c => (right.col c).getD p.2 default) _ hnd hndR
    (fun k => g k ++ (left.columns.filter fun c =>
      decide (renameL right.columns lOn rOn c = k)).map fun c => (left.col c).getD p.1 default)]
  apply List.map_congr_left
  intro k _
  simp [perPairCells, List.append_assoc]

theorem foldl_joinRow_map [DecidableEq α] [Inhabited α] (left right : DataFrame α)
    (lOn rOn : String)
    (hnd : (joinNames left.columns right.columns lOn rOn).Nodup)
    (pairs : List (Nat × Nat)) :
    ∀ g : String → List α,
      pairs.foldl (joinRow left right lOn rOn)
          ((joinNames left.columns right.columns lOn rOn).map fun k => (k, g k))
        = (joinNames left.columns right.columns lOn rOn).map
            fun k => (k, g k ++ flatMapL (perPairCells left right lOn rOn k) pairs) := by
  induction pairs with
  | nil =>
    intro g
    show (joinNames left.columns right.columns lOn rOn).map _ = _
    exact List.map_congr_left fun k _ => by simp [flatMapL]
  | cons p pairs ih =>
    intro g
    show List.foldl _ (joinRow left right lOn rOn _ p) pairs = _
    rw [joinRow_map left right lOn rOn hnd g p,
      ih (fun k => g k ++ perPairCells left right lOn rOn k p)]
    exact List.map_congr_left fun k _ => by simp [flatMapL, List.append_assoc]

/-- Closed form of a successful join under name freshness: the result's
columns are exactly `joinNames`, each holding the concatenated per-pair
cells over the emitted pair list. -/
theorem join_ok_closed_form [DecidableEq α] [Inhabited α] (left right : DataFrame α)
    (lOn rOn : String) (hl : lOn ∈ left.columns) (hr : rOn ∈ right.columns)
    (hnd : (joinNames left.columns right.columns lOn rOn).Nodup) :
    left.join right lOn rOn = .ok
      ⟨(joinNames left.columns right.columns lOn rOn).map fun k =>
          (k, flatMapL (perPairCells left right lOn rOn k)
            (joinPairs (left.col lOn) (right.col rOn))),
        joinNames left.columns right.columns lOn rOn⟩ := by
  unfold DataFrame.join
  rw [if_neg (by simpa using hl), if_neg (by simpa using hr)]
  rw [joinInit_eq left.columns right.columns lOn rOn hnd]
  have hfold := foldl_joinRow_map left right lOn rOn hnd
    (joinPairs (left.col lOn) (right.col rOn)) (fun _ => [])
  simp only at hfold ⊢
  rw [hfold]
  simp

theorem filter_rename_singleton (l : List String) (ρ : String → String) (c : String)
    (hc : c ∈ l) (hnd : (l.map ρ).Nodup) :
    l.filter (fun c' => decide (ρ c' = ρ c)) = [c] := by
  induction l with
  | nil => cases hc
  | cons x l ih =>
    simp only [List.map_cons, List.nodup_cons] at hnd
    obtain ⟨hx, hl⟩ := hnd
    by_cases hxc : x = c
    · subst hxc
      rw [List.filter_cons]
      have hnil : l.filter (fun c' => decide (ρ c' = ρ x)) = [] := by
        apply List.filter_eq_nil.mpr
        intro c' h'
        simp only [decide_eq_true_eq]
        intro he
        exact hx (by rw [← he]; exact List.mem_map_of_mem ρ h')
      simp [hnil]
    · have hcl : c ∈ l := by
        rcases List.mem_cons.mp hc with h | h
        · exact absurd h.symm hxc
        · exact h
      rw [List.filter_cons]
      have hxcp : ¬(ρ x = ρ c) := fun he => hx (by rw [he]; exact List.mem_map_of_mem ρ hcl)
      simp [hxcp, ih hcl hl]

theorem perPairCells_length_one [DecidableEq α] [Inhabited α]
    (left right : DataFrame α) (lOn rOn : String)
    (hnd : (joinNames left.columns right.columns lOn rOn).Nodup) (k : String)
    (hk : k ∈ joinNames left.columns right.columns lOn rOn) (p : Nat × Nat) :
    (perPairCells left right lOn rOn k p).length = 1 := by
  have hdisj := (List.nodup_append.mp hnd).2.2
  unfold perPairCells
  rcases List.mem_append.mp hk with hkl | hkr
  · obtain ⟨c, hc, hck⟩ := List.mem_map.mp hkl
    subst hck
    rw [filter_rename_singleton left.columns _ c hc (List.nodup_append.mp hnd).1]
    have hnilR : ((rightKept right.columns lOn rOn).filter fun c' =>
        decide (renameR left.columns lOn rOn c' = renameL right.columns lOn rOn c)) = [] := by
      apply List.filter_eq_nil.mpr
      intro c' h'
      simp only [decide_eq_true_eq]
      intro he
      exact hdisj (List.mem_map_of_mem _ hc) (by rw [← he]; exact List.mem_map_of_mem _ h')
    rw [hnilR]
    simp
  · obtain ⟨c, hc, hck⟩ := List.mem_map.mp hkr
    subst hck
    rw [filter_rename_singleton (rightKept right.columns lOn rOn) _ c hc
      (List.nodup_append.mp hnd).2.1]
    have hnilL : (left.columns.filter fun c' =>
        decide (renameL right.columns lOn rOn c' = renameR left.columns lOn rOn c)) = [] := by
      apply List.filter_eq_nil.mpr
      intro c' h'
      simp only [decide_eq_true_eq]
      intro he
      exact hdisj (by rw [← he]; exact List.mem_map_of_mem _ h') (List.mem_map_of_mem _ hc)
    rw [hnilL]
    simp

theorem joinNames_ne_nil (leftCols rightCols : List String) (lOn rOn : String)
    (hl : lOn ∈ leftCols) : joinNames leftCols rightCols lOn rOn ≠ [] := by
  unfold joinNames
  intro h
  have h1 : leftCols.map (renameL rightCols lOn rOn) = [] := (List.append_eq_nil.mp h).1
  have h2 : leftCols = [] := List.map_eq_nil.mp h1
  rw [h2] at hl
  exact List.not_mem_nil lOn hl

theorem join_res_WF [DecidableEq α] [Inhabited α] (left right : DataFrame α)
    (lOn rOn : String) (hl : lOn ∈ left.columns)
    (hnd : (joinNames left.columns right.columns lOn rOn).Nodup) :
    (DataFrame.mk ((joinNames left.columns right.columns lOn rOn).map fun k =>
        (k, flatMapL (perPairCells left right lOn rOn k)
          (joinPairs (left.col lOn) (right.col rOn))))
      (joinNames left.columns right.columns lOn rOn)).WF ∧
    (DataFrame.mk ((joinNames left.columns right.columns lOn rOn).map fun k =>
        (k, flatMapL (perPairCells left right lOn rOn k)
          (joinPairs (left.col lOn) (right.col rOn))))
      (joinNames left.columns right.columns lOn rOn)).shape0
      = (joinPairs (left.col lOn) (right.col rOn)).length := by
  obtain ⟨n0, ns, hcons⟩ := List.exists_cons_of_ne_nil
    (joinNames_ne_nil left.columns right.columns lOn rOn hl)
  have hsh : (DataFrame.mk ((joinNames left.columns right.columns lOn rOn).map fun k =>
      (k, flatMapL (perPairCells left right lOn rOn k)
        (joinPairs (left.col lOn) (right.col rOn))))
      (joinNames left.columns right.columns lOn rOn)).shape0
      = (joinPairs (left.col lOn) (right.col rOn)).length := by
    rw [hcons, DataFrame.shape0_mk_cons]
    exact flatMapL_length_of_one _ _ (fun p => perPairCells_length_one left right lOn rOn
      hnd n0 (by rw [hcons]; exact List.mem_cons_self n0 ns) p)
  refine ⟨⟨map_fst_map_self _ _, hnd, ?_⟩, hsh⟩
  intro q hq
  obtain ⟨k, hkmem, hkq⟩ := List.mem_map.mp hq
  rw [← hkq]
  rw [hsh]
  exact flatMapL_length_of_one _ _ (fun p => perPairCells_length_one left right lOn rOn
    hnd k hkmem p)

/-!  Characterising the emitted pair list. -/

/-- The right row positions holding key `k`, starting the numbering at `i`:
the reference form of an index bucket. -/
def specBucket [DecidableEq α] (k : α) : List α → Nat → List Nat
  | [], _ => []
  | v :: vs, i => (if v = k then [i] else []) ++ specBucket k vs (i + 1)

theorem dlookup_dpush [DecidableEq κ] (d : Dict κ (List Nat)) (v : κ) (i : Nat) (k : κ) :
    dlookup (dpush d v i) k =
      if v = k then some ((dlookup d k).getD [] ++ [i]) else dlookup d k := by
  induction d with
  | nil =>
    by_cases hv : v = k <;> simp [dpush, dlookup, hv]
  | cons e rest ih =>
    obtain ⟨k2, l⟩ := e
    by_cases h2v : k2 = v
    · subst h2v
      by_cases h2k : k2 = k
      · subst h2k
        simp [dpush, dlookup]
      · simp [dpush, dlookup, h2k]
    · by_cases h2k : k2 = k
      · have hvk : ¬(v = k) := fun h => h2v (h2k.trans h.symm)
        have hkv : ¬(k = v) := fun h => hvk h.symm
        simp [dpush, dlookup, h2v, h2k, hvk, hkv]
      · simp [dpush, dlookup, h2v, h2k, ih]

theorem buildIndexAux_lookup [DecidableEq α] (vs : List α) :
    ∀ (i : Nat) (d : Dict α (List Nat)) (k : α),
      dlookup (buildIndexAux vs i d) k =
        match dlookup d k with
        | some l => some (l ++ specBucket k vs i)
        | Option.none =>
          if specBucket k vs i = [] then Option.none else some (specBucket k vs i) := by
  induction vs with
  | nil =>
    intro i d k
    show dlookup d k = _
    cases hdk : dlookup d k <;> simp [specBucket]
  | cons v vs ih =>
    intro i d k
    show dlookup (buildIndexAux vs (i + 1) (dpush d v i)) k = _
    rw [ih (i + 1) (dpush d v i) k, dlookup_dpush]
    by_cases hvk : v = k
    · rw [if_pos hvk]
      cases hdk : dlookup d k with
      | none =>
        have hsb : specBucket k (v :: vs) i = i :: specBucket k vs (i + 1) := by
          simp [specBucket, hvk]
        simp [hsb]
      | some l =>
        have hsb : specBucket k (v :: vs) i = i :: specBucket k vs (i + 1) := by
          simp [specBucket, hvk]
        simp [hsb]
    · rw [if_neg hvk]
      have hsb : specBucket k (v :: vs) i = specBucket k vs (i + 1) := by
        simp [specBucket, hvk]
      rw [hsb]

theorem dlookup_buildIndex_getD [DecidableEq α] (rkey : List α) (k : α) :
    (dlookup (buildIndex rkey) k).getD [] = specBucket k rkey 0 := by
  unfold buildIndex
  rw [buildIndexAux_lookup rkey 0 [] k]
  show (match (Option.none : Option (List Nat)) with
    | some l => some (l ++ specBucket k rkey 0)
    | Option.none =>
      if specBucket k rkey 0 = [] then Option.none
      else some (specBucket k rkey 0)).getD [] = _
  by_cases h : specBucket k rkey 0 = [] <;> simp [h]

theorem dlookup_buildIndex_some [DecidableEq α] (rkey : List α) (k : α) (bs : List Nat)
    (h : dlookup (buildIndex rkey) k = some bs) : bs = specBucket k rkey 0 := by
  have := dlookup_buildIndex_getD rkey k
  rw [h] at this
  simpa using this

theorem mem_specBucket [DecidableEq α] (k : α) (vs : List α) :
    ∀ i j, (j ∈ specBucket k vs i ↔
      ∃ (t : Nat) (ht : t < vs.length), j = i + t ∧ vs.get ⟨t, ht⟩ = k) := by
  induction vs with
  | nil =>
    intro i j
    simp [specBucket]
  | cons v vs ih =>
    intro i j
    show (j ∈ (if v = k then [i] else []) ++ specBucket k vs (i + 1)) ↔ _
    rw [List.mem_append]
    constructor
    · rintro (h | h)
      · by_cases hvk : v = k
        · rw [if_pos hvk] at h
          have hj : j = i := by simpa using h
          exact ⟨0, Nat.succ_pos _, by omega, hvk⟩
        · rw [if_neg hvk] at h
          cases h
      · obtain ⟨t, ht, hjt, hvt⟩ := (ih (i + 1) j).mp h
        exact ⟨t + 1, Nat.succ_lt_succ ht, by omega, hvt⟩
    · rintro ⟨t, ht, hjt, hvt⟩
      cases t with
      | zero =>
        left
        have hvk : v = k := hvt
        rw [if_pos hvk]
        simp
        omega
      | succ u =>
        right
        exact (ih (i + 1) j).mpr ⟨u, Nat.lt_of_succ_lt_succ ht, by omega, hvt⟩

theorem specBucket_ge [DecidableEq α] (k : α) (vs : List α) :
    ∀ i j, j ∈ specBucket k vs i → i ≤ j := by
  intro i j h
  obtain ⟨t, _, hjt, _⟩ := (mem_specBucket k vs i j).mp h
  omega

theorem specBucket_pairwise [DecidableEq α] (k : α) (vs : List α) :
    ∀ i, (specBucket k vs i).Pairwise (· < ·) := by
  induction vs with
  | nil => intro i; simp [specBucket]
  | cons v vs ih =>
    intro i
    show ((if v = k then [i] else []) ++ specBucket k vs (i + 1)).Pairwise (· < ·)
    rw [List.pairwise_append]
    refine ⟨?_, ih (i + 1), ?_⟩
    · by_cases hvk : v = k <;> simp [hvk]
    · intro a ha b hb
      have hb1 : i + 1 ≤ b := specBucket_ge k vs (i + 1) b hb
      have ha1 : a = i := by
        by_cases hvk : v = k
        · rw [if_pos hvk] at ha; simpa using ha
        · rw [if_neg hvk] at ha; cases ha
      omega

/-- Emission order: strictly increasing left row, then strictly increasing
right row within one left row. -/
def pairLt (p q : Nat × Nat) : Prop :=
  p.1 < q.1 ∨ (p.1 = q.1 ∧ p.2 < q.2)

theorem mem_joinPairsAux [DecidableEq α] (index : Dict α (List Nat)) (lkey : List α) :
    ∀ (i0 a b : Nat), ((a, b) ∈ joinPairsAux index lkey i0 ↔
      ∃ (t : Nat) (ht : t < lkey.length), a = i0 + t ∧
        b ∈ (dlookup index (lkey.get ⟨t, ht⟩)).getD []) := by
  induction lkey with
  | nil =>
    intro i0 a b
    simp [joinPairsAux]
  | cons kv rest ih =>
    intro i0 a b
    show ((a, b) ∈ (match dlookup index kv with
      | Option.none => []
      | some bucket => bucket.map fun j => (i0, j)) ++ joinPairsAux index rest (i0 + 1)) ↔ _
    rw [List.mem_append]
    constructor
    · rintro (h | h)
      · cases hidx : dlookup index kv with
        | none => rw [hidx] at h; cases h
        | some bucket =>
          rw [hidx] at h
          obtain ⟨j, hj, hab⟩ := List.mem_map.mp h
          have h1 : i0 = a := congrArg Prod.fst hab
          have h2 : j = b := congrArg Prod.snd hab
          refine ⟨0, Nat.succ_pos _, by omega, ?_⟩
          show b ∈ (dlookup index kv).getD []
          rw [hidx]
          rw [← h2]
          exact hj
      · obtain ⟨t, ht, hat, hbt⟩ := (ih (i0 + 1) a b).mp h
        exact ⟨t + 1, Nat.succ_lt_succ ht, by omega, hbt⟩
    · rintro ⟨t, ht, hat, hbt⟩
      cases t with
      | zero =>
        left
        have hbt' : b ∈ (dlookup index kv).getD [] := hbt
        have ha : a = i0 := by omega
        subst ha
        cases hidx : dlookup index kv with
        | none => rw [hidx] at hbt'; simp at hbt'
        | some bucket =>
          rw [hidx] at hbt'
          show (a, b) ∈ bucket.map fun j => (a, j)
          exact List.mem_map.mpr ⟨b, by simpa using hbt', rfl⟩
      | succ u =>
        right
        exact (ih (i0 + 1) a b).mpr ⟨u, Nat.lt_of_succ_lt_succ ht, by omega, hbt⟩

theorem fst_ge_joinPairsAux [DecidableEq α] (index : Dict α (List Nat)) (lkey : List α)
    (i0 : Nat) : ∀ p ∈ joinPairsAux index lkey i0, i0 ≤ p.1 := by
  intro p hp
  obtain ⟨a, b⟩ := p
  obtain ⟨t, _, hat, _⟩ := (mem_joinPairsAux index lkey i0 a b).mp hp
  simp only
  omega

theorem pairwise_joinPairsAux [DecidableEq α] (index : Dict α (List Nat))
    (hidx : ∀ k bs, dlookup index k = some bs → bs.Pairwise (· < ·)) (lkey : List α) :
    ∀ i0, (joinPairsAux index lkey i0).Pairwise pairLt := by
  induction lkey with
  | nil => intro i0; simp [joinPairsAux]
  | cons kv rest ih =>
    intro i0
    show ((match dlookup index kv with
      | Option.none => []
      | some bucket => bucket.map fun j => (i0, j)) ++ joinPairsAux index rest (i0 + 1)).Pairwise pairLt
    rw [List.pairwise_append]
    refine ⟨?_, ih (i0 + 1), ?_⟩
    · cases hidx' : dlookup index kv with
      | none => simp
      | some bucket =>
        rw [List.pairwise_map]
        exact (hidx kv bucket hidx').imp (fun h => Or.inr ⟨rfl, h⟩)
    · intro p hp q hq
      have hq1 : i0 + 1 ≤ q.1 := fst_ge_joinPairsAux index rest (i0 + 1) q hq
      have hp1 : p.1 = i0 := by
        cases hidx' : dlookup index kv with
        | none => rw [hidx'] at hp; cases hp
        | some bucket =>
          rw [hidx'] at hp
          obtain ⟨j, _, hj⟩ := List.mem_map.mp hp
          rw [← hj]
      exact Or.inl (by omega)

theorem joinPairs_pairwise [DecidableEq α] (lkey rkey : List α) :
    (joinPairs lkey rkey).Pairwise pairLt :=
  pairwise_joinPairsAux (buildIndex rkey)
    (fun k bs h => (dlookup_buildIndex_some rkey k bs h) ▸ specBucket_pairwise k rkey 0)
    lkey 0

theorem mem_joinPairs [DecidableEq α] (lkey rkey : List α) (a b : Nat) :
    (a, b) ∈ joinPairs lkey rkey ↔
      ∃ (ha : a < lkey.length) (hb : b < rkey.length),
        lkey.get ⟨a, ha⟩ = rkey.get ⟨b, hb⟩ := by
  unfold joinPairs
  rw [mem_joinPairsAux (buildIndex rkey) lkey 0 a b]
  constructor
  · rintro ⟨t, ht, hat, hbt⟩
    have hta : t = a := by omega
    subst hta
    rw [dlookup_buildIndex_getD] at hbt
    obtain ⟨u, hu, hbu, hvu⟩ := (mem_specBucket (lkey.get ⟨t, ht⟩) rkey 0 b).mp hbt
    have hub : u = b := by omega
    subst hub
    exact ⟨ht, hu, hvu.symm⟩
  · rintro ⟨ha, hb, heq⟩
    refine ⟨a, ha, by omega, ?_⟩
    rw [dlookup_buildIndex_getD]
    exact (mem_specBucket (lkey.get ⟨a, ha⟩) rkey 0 b).mpr ⟨b, hb, by omega, heq.symm⟩

theorem flatMapL_congr (f g : β → List γ) (l : List β) (h : ∀ x, f x = g x) :
    flatMapL f l = flatMapL g l := by
  induction l with
  | nil => rfl
  | cons x xs ih => simp [flatMapL, h x, ih]

theorem perPairCells_left [DecidableEq α] [Inhabited α] (left right : DataFrame α)
    (lOn rOn : String) (hnd : (joinNames left.columns right.columns lOn rOn).Nodup)
    (c : String) (hc : c ∈ left.columns) (p : Nat × Nat) :
    perPairCells left right lOn rOn (renameL right.columns lOn rOn c) p
      = [(left.col c).getD p.1 default] := by
  have hdisj := (List.nodup_append.mp hnd).2.2
  unfold perPairCells
  rw [filter_rename_singleton left.columns _ c hc (List.nodup_append.mp hnd).1]
  have hnilR : ((rightKept right.columns lOn rOn).filter fun c' =>
      decide (renameR left.columns lOn rOn c' = renameL right.columns lOn rOn c)) = [] := by
    apply List.filter_eq_nil.mpr
    intro c' h'
    simp only [decide_eq_true_eq]
    intro he
    exact hdisj (List.mem_map_of_mem _ hc) (by rw [← he]; exact List.mem_map_of_mem _ h')
  rw [hnilR]
  simp

theorem perPairCells_right [DecidableEq α] [Inhabited α] (left right : DataFrame α)
    (lOn rOn : String) (hnd : (joinNames left.columns right.columns lOn rOn).Nodup)
    (c : String) (hc : c ∈ rightKept right.columns lOn rOn) (p : Nat × Nat) :
    perPairCells left right lOn rOn (renameR left.columns lOn rOn c) p
      = [(right.col c).getD p.2 default] := by
  have hdisj := (List.nodup_append.mp hnd).2.2
  unfold perPairCells
  rw [filter_rename_singleton (rightKept right.columns lOn rOn) _ c hc
    (List.nodup_append.mp hnd).2.1]
  have hnilL : (left.columns.filter fun c' =>
      decide (renameL right.columns lOn rOn c' = renameR left.columns lOn rOn c)) = [] := by
    apply List.filter_eq_nil.mpr
    intro c' h'
    simp only [decide_eq_true_eq]
    intro he
    exact hdisj (by rw [← he]; exact List.mem_map_of_mem _ h') (List.mem_map_of_mem _ hc)
  rw [hnilL]
  simp

/-- C2, counterexample.  The row-count invariant fails on a join of two
well-formed tables: joining `left(K)` with `right(K, J)` on `K`/`J` drops
right's `K` from the schema but still appends its cells into the left `K`
column, so the result has `K` of length 2 and `J` of length 1 while its
`row_count` is 2. -/
theorem join_breaks_row_count_invariant :
    (DataFrame.mk [("K", ["a"])] ["K"]).WF ∧
    (DataFrame.mk [("K", ["a"]), ("J", ["a"])] ["K", "J"]).WF ∧
    (DataFrame.mk [("K", ["a"])] ["K"]).join
        (DataFrame.mk [("K", ["a"]), ("J", ["a"])] ["K", "J"]) "K" "J"
      = .ok (DataFrame.mk [("K", ["a", "a"]), ("J", ["a"])] ["K", "J"]) ∧
    (DataFrame.mk [("K", ["a", "a"]), ("J", ["a"])] ["K", "J"]).shape0 = 2 ∧
    ("J", ["a"]) ∈ (DataFrame.mk [("K", ["a", "a"]), ("J", ["a"])] ["K", "J"]).data ∧
    (["a"] : List String).length ≠ 2 := by
  decide

/-- C2, amended.  Every table produced by filtering (mask or predicate
form), projection, or join has columns of one common length equal to its
`row_count` — for the join under the proviso that the generated result
column names (`joinNames`) are pairwise distinct; a join in which a (kept,
renamed) right column name collides with an earlier result name appends
into the colliding column and breaks the invariant (see the
counterexample). -/
theorem result_columns_uniform_length [DecidableEq α] [Inhabited α] :
    (∀ (df : DataFrame α) (mask : List Bool) (res : DataFrame α), df.WF →
      df.filterMask mask = .ok res →
      res.WF ∧ ∀ p ∈ res.data, p.2.length = res.shape0) ∧
    (∀ (df : DataFrame α) (P : Dict String α → Bool), df.WF →
      (df.filterPred P).WF ∧
        ∀ p ∈ (df.filterPred P).data, p.2.length = (df.filterPred P).shape0) ∧
    (∀ (df : DataFrame α) (cols : List String) (res : DataFrame α), df.WF →
      df.project cols = .ok res → ∀ p ∈ res.data, p.2.length = res.shape0) ∧
    (∀ (left right : DataFrame α) (lOn rOn : String) (res : DataFrame α),
      left.WF → right.WF → (joinNames left.columns right.columns lOn rOn).Nodup →
      left.join right lOn rOn = .ok res →
      res.WF ∧ ∀ p ∈ res.data, p.2.length = res.shape0) := by
  refine ⟨?_, ?_, ?_, ?_⟩
  · intro df mask res hwf hok
    unfold DataFrame.filterMask at hok
    by_cases hlen : mask.length ≠ df.shape0
    · rw [if_pos hlen] at hok
      cases hok
    · rw [if_neg hlen] at hok
      have hres : res = df.filterCore (maskIdx 0 mask) := by
        cases hok
        rfl
      subst hres
      have hwfres := df.filterCore_WF (maskIdx 0 mask) hwf.2.1
      exact ⟨hwfres, hwfres.2.2⟩
  · intro df P hwf
    have hwfres := df.filterCore_WF
      ((List.range df.shape0).filter fun i => P (df.rowAt i)) hwf.2.1
    exact ⟨hwfres, hwfres.2.2⟩
  · intro df cols res hwf hok
    unfold DataFrame.project at hok
    by_cases hm : (cols.filter fun c => !(df.columns.contains c)) = []
    · rw [if_pos hm] at hok
      have hres : res = ⟨cols.map fun c => (c, df.col c), cols⟩ := by
        cases hok
        rfl
      subst hres
      have hsub : ∀ c ∈ cols, c ∈ df.columns := by
        intro c hc
        by_contra hcc
        have hmem : c ∈ cols.filter fun c => !(df.columns.contains c) :=
          List.mem_filter.mpr ⟨hc, by simp [hcc]⟩
        rw [hm] at hmem
        exact List.not_mem_nil c hmem
      rcases hcols0 : cols with _ | ⟨c0, cs⟩
      · intro p hp
        simp at hp
      · intro p hp
        obtain ⟨c, hc, hcp⟩ := List.mem_map.mp hp
        rw [← hcp]
        show (df.col c).length = _
        rw [DataFrame.shape0_mk_cons]
        rw [df.length_col_of_WF hwf c (hsub c (by rw [hcols0]; exact hc)),
          df.length_col_of_WF hwf c0 (hsub c0 (by rw [hcols0]; exact List.mem_cons_self c0 cs))]
    · rw [if_neg hm] at hok
      cases hok
  · intro left right lOn rOn res hwl hwr hnd hok
    by_cases hl : lOn ∈ left.columns
    · by_cases hr : rOn ∈ right.columns
      · have hclosed := join_ok_closed_form left right lOn rOn hl hr hnd
        rw [hclosed] at hok
        have hres : res = ⟨(joinNames left.columns right.columns lOn rOn).map fun k =>
            (k, flatMapL (perPairCells left right lOn rOn k)
              (joinPairs (left.col lOn) (right.col rOn))),
            joinNames left.columns right.columns lOn rOn⟩ := by
          cases hok
          rfl
        subst hres
        have hwfres := (join_res_WF left right lOn rOn hl hnd).1
        exact ⟨hwfres, hwfres.2.2⟩
      · unfold DataFrame.join at hok
        rw [if_neg (by simpa using hl), if_pos (by simpa using hr)] at hok
        cases hok
    · unfold DataFrame.join at hok
      rw [if_pos (by simpa using hl)] at hok
      cases hok

/-- Witness for `result_columns_uniform_length`: a 1-row inner join on a
shared `id` key yields a well-formed result. -/
theorem result_columns_uniform_length_witness :
    (DataFrame.mk [("id", ["1"]), ("x", ["a"])] ["id", "x"]).join
        (DataFrame.mk [("id", ["1"]), ("y", ["b"])] ["id", "y"]) "id" "id"
      = .ok (DataFrame.mk [("id", ["1"]), ("x", ["a"]), ("y", ["b"])] ["id", "x", "y"]) ∧
    (DataFrame.mk [("id", ["1"]), ("x", ["a"]), ("y", ["b"])] ["id", "x", "y"]).WF := by
  refine ⟨by decide, ?_⟩
  exact (result_columns_uniform_length.2.2.2
    (DataFrame.mk [("id", ["1"]), ("x", ["a"])] ["id", "x"])
    (DataFrame.mk [("id", ["1"]), ("y", ["b"])] ["id", "y"]) "id" "id"
    (DataFrame.mk [("id", ["1"]), ("x", ["a"]), ("y", ["b"])] ["id", "x", "y"])
    (by decide) (by decide) (by decide) (by decide)).1

/-- C3.  The join schema diverges from the documented naming rules on a
right column named like the left join key when the key names differ:
joining `left(K)` with `right(K, J)` on `K`/`J` should, per the claim (and
the join's own docstring — "join key with different name → both versions
appear"), include right's `K`, giving `[K, K, J]` (the spec-modelled
schema); the code instead drops right's `K` from the schema and appends its
cells into the left `K` column.  On the docstring's own example
(`ID,Name,Score` × `ID,Name,Grade` on `ID`/`ID`) code and claim agree. -/
theorem join_schema_drops_colliding_right_column :
    specJoinSchema ["K"] ["K", "J"] "K" "J" = ["K", "K", "J"] ∧
    (joinInit (α := String) ["K"] ["K", "J"] "K" "J").2 = ["K", "J"] ∧
    (DataFrame.mk [("K", ["x"])] ["K"]).join
        (DataFrame.mk [("K", ["x"]), ("J", ["x"])] ["K", "J"]) "K" "J"
      = .ok (DataFrame.mk [("K", ["x", "x"]), ("J", ["x"])] ["K", "J"]) ∧
    (joinInit (α := String) ["ID", "Name", "Score"] ["ID", "Name", "Grade"] "ID" "ID").2
      = ["ID", "Name_left", "Score", "Name_right", "Grade"] ∧
    specJoinSchema ["ID", "Name", "Score"] ["ID", "Name", "Grade"] "ID" "ID"
      = ["ID", "Name_left", "Score", "Name_right", "Grade"] := by
  decide

/-- C4, counterexample.  On the same collision the row count of the join
result is not the number of matched pairs: one matching pair, but
`row_count = 2`. -/
theorem join_row_count_not_pairs :
    (DataFrame.mk [("K", ["y"])] ["K"]).join
        (DataFrame.mk [("K", ["y"]), ("J", ["y"])] ["K", "J"]) "K" "J"
      = .ok (DataFrame.mk [("K", ["y", "y"]), ("J", ["y"])] ["K", "J"]) ∧
    (joinPairs (["y"] : List String) ["y"]).length = 1 ∧
    (DataFrame.mk [("K", ["y", "y"]), ("J", ["y"])] ["K", "J"]).shape0 = 2 ∧
    (2 : Nat) ≠ 1 := by
  decide

/-- C4, amended.  Under distinct generated result names, a successful inner
join emits exactly one row per pair of a left row and a right row with
equal key values: the emitted pair list contains `(a, b)` exactly when the
keys at `a` and `b` agree (so unmatched left rows contribute nothing), it
is sorted by left row and then by right row within one left row, the
result's `row_count` is its length, and each result column lists its
source column's cells at those pairs, in pair order. -/
theorem join_pairs_spec [DecidableEq α] [Inhabited α] (left right : DataFrame α)
    (lOn rOn : String) (res : DataFrame α) (hwl : left.WF) (hwr : right.WF)
    (hl : lOn ∈ left.columns) (hr : rOn ∈ right.columns)
    (hnd : (joinNames left.columns right.columns lOn rOn).Nodup)
    (hok : left.join right lOn rOn = .ok res) :
    (∀ a b : Nat, ((a, b) ∈ joinPairs (left.col lOn) (right.col rOn) ↔
      ∃ (ha : a < (left.col lOn).length) (hb : b < (right.col rOn).length),
        (left.col lOn).get ⟨a, ha⟩ = (right.col rOn).get ⟨b, hb⟩)) ∧
    (joinPairs (left.col lOn) (right.col rOn)).Pairwise pairLt ∧
    res.shape0 = (joinPairs (left.col lOn) (right.col rOn)).length ∧
    (∀ c ∈ left.columns, dlookup res.data (renameL right.columns lOn rOn c)
      = some ((joinPairs (left.col lOn) (right.col rOn)).map
          fun p => (left.col c).getD p.1 default)) ∧
    (∀ c ∈ rightKept right.columns lOn rOn,
      dlookup res.data (renameR left.columns lOn rOn c)
      = some ((joinPairs (left.col lOn) (right.col rOn)).map
          fun p => (right.col c).getD p.2 default)) := by
  have hclosed := join_ok_closed_form left right lOn rOn hl hr hnd
  rw [hclosed] at hok
  have hres : res = ⟨(joinNames left.columns right.columns lOn rOn).map fun k =>
      (k, flatMapL (perPairCells left right lOn rOn k)
        (joinPairs (left.col lOn) (right.col rOn))),
      joinNames left.columns right.columns lOn rOn⟩ := by
    cases hok
    rfl
  subst hres
  refine ⟨fun a b => mem_joinPairs _ _ a b, joinPairs_pairwise _ _,
    (join_res_WF left right lOn rOn hl hnd).2, ?_, ?_⟩
  · intro c hc
    show (dlookup ((joinNames left.columns right.columns lOn rOn).map fun k =>
      (k, flatMapL (perPairCells left right lOn rOn k)
        (joinPairs (left.col lOn) (right.col rOn))))
      (renameL right.columns lOn rOn c)) = _
    rw [dlookup_map_self]
    have hmem : renameL right.columns lOn rOn c
        ∈ joinNames left.columns right.columns lOn rOn :=
      List.mem_append.mpr (Or.inl (List.mem_map_of_mem _ hc))
    rw [if_pos hmem]
    rw [flatMapL_congr _ (fun p => [(left.col c).getD p.1 default]) _
      (fun p => perPairCells_left left right lOn rOn hnd c hc p)]
    rw [flatMapL_map_singleton]
  · intro c hc
    show (dlookup ((joinNames left.columns right.columns lOn rOn).map fun k =>
      (k, flatMapL (perPairCells left right lOn rOn k)
        (joinPairs (left.col lOn) (right.col rOn))))
      (renameR left.columns lOn rOn c)) = _
    rw [dlookup_map_self]
    have hmem : renameR left.columns lOn rOn c
        ∈ joinNames left.columns right.columns lOn rOn :=
      List.mem_append.mpr (Or.inr (List.mem_map_of_mem _ hc))
    rw [if_pos hmem]
    rw [flatMapL_congr _ (fun p => [(right.col c).getD p.2 default]) _
      (fun p => perPairCells_right left right lOn rOn hnd c hc p)]
    rw [flatMapL_map_singleton]

/-- Witness for `join_pairs_spec`: a 3-row left with keys `A,A,B` joined to
a 3-row right with keys `A,B,B` emits exactly the 4 pairs
`(0,0),(1,0),(2,1),(2,2)`, and the result's row count is their number. -/
theorem join_pairs_spec_witness :
    joinPairs (["A", "A", "B"] : List String) ["A", "B", "B"] = [(0, 0), (1, 0), (2, 1), (2, 2)] ∧
    (DataFrame.mk [("k", ["A", "A", "B"]), ("lv", ["1", "2", "3"])] ["k", "lv"]).join
        (DataFrame.mk [("k", ["A", "B", "B"]), ("rv", ["x", "y", "z"])] ["k", "rv"]) "k" "k"
      = .ok (DataFrame.mk [("k", ["A", "A", "B", "B"]), ("lv", ["1", "2", "3", "3"]),
          ("rv", ["x", "x", "y", "z"])] ["k", "lv", "rv"]) ∧
    (DataFrame.mk [("k", ["A", "A", "B", "B"]), ("lv", ["1", "2", "3", "3"]),
        ("rv", ["x", "x", "y", "z"])] ["k", "lv", "rv"]).shape0
      = (joinPairs ((DataFrame.mk [("k", ["A", "A", "B"]), ("lv", ["1", "2", "3"])]
          ["k", "lv"]).col "k")
          ((DataFrame.mk [("k", ["A", "B", "B"]), ("rv", ["x", "y", "z"])] ["k", "rv"]).col "k")).length := by
  refine ⟨by decide, by decide, ?_⟩
  exact (join_pairs_spec
    (DataFrame.mk [("k", ["A", "A", "B"]), ("lv", ["1", "2", "3"])] ["k", "lv"])
    (DataFrame.mk [("k", ["A", "B", "B"]), ("rv", ["x", "y", "z"])] ["k", "rv"]) "k" "k"
    (DataFrame.mk [("k", ["A", "A", "B", "B"]), ("lv", ["1", "2", "3", "3"]),
      ("rv", ["x", "x", "y", "z"])] ["k", "lv", "rv"])
    (by decide) (by decide) (by decide) (by decide) (by decide) (by decide)).2.2.1

end ADE
